import Mathlib

/-! # migrathor: reconciliation and execution engine

A shallow embedding of `filter.go`, `error.go` and `migrathor.go` of
`denisbrodbeck/migrathor`, followed by theorems about it.

Go strings and byte slices are lists of bytes (`Str`).  The collaborators the
package calls (file system, `database/sql`, clock, logger) are modelled by an
explicit world state and an environment of outcome oracles, so that every
possible outcome of every operation is covered.
-/

namespace Migrathor

/-! ## Strings -/

/-- A Go `string` or `[]byte`: a finite sequence of bytes. -/
abbrev Str := List Nat

/-- The bytes of a text, each character in its UTF-8 encoding restricted to the
one-byte (ASCII) range used by the literals of the package. -/
def lit (s : String) : Str := s.data.map Char.toNat

/-- Go's built-in `<` on strings: bytewise lexicographic comparison. -/
def strLess : Str → Str → Bool
  | _, [] => false
  | [], _ :: _ => true
  | a :: as, b :: bs => if a < b then true else if b < a then false else strLess as bs

/-- The order `sort.Strings` sorts by: `a` may stand before `b` when `b < a` is false. -/
def strLE (a b : Str) : Prop := strLess b a = false

instance strLE_decidable : DecidableRel strLE := fun a b =>
  inferInstanceAs (Decidable (strLess b a = false))

/-- The standard library's `sort.Strings`: the slice rearranged into ascending
order under `strLess`.  Equal strings are indistinguishable, so the result does
not depend on the sorting algorithm; it is computed here by insertion. -/
def sortStrings (xs : List Str) : List Str := xs.insertionSort strLE

/-- The parts of the Go standard library that are taken as given. -/
structure Lib where
  /-- The function `strings.Map(unicode.ToLower, s)`, used for strings with a non-ASCII byte. -/
  unicodeLower : Str → Str
  /-- The function `filepath.Join(dir, name)`. -/
  joinPath : Str → Str → Str
  /-- The formatting verb `%q` of `fmt` applied to a string. -/
  quote : Str → Str

/-- The loop at the head of `strings.ToLower`: is every byte below `utf8.RuneSelf`? -/
def isASCII (s : Str) : Bool := s.all (fun c => decide (c < 0x80))

/-- The loop at the head of `strings.ToLower`: is there a byte in `'A'..'Z'`? -/
def hasUpper (s : Str) : Bool := s.any (fun c => decide (0x41 ≤ c ∧ c ≤ 0x5A))

/-- One byte of the ASCII branch of `strings.ToLower`. -/
def lowerByte (c : Nat) : Nat := if 0x41 ≤ c ∧ c ≤ 0x5A then c + 0x20 else c

/-- The standard library's `strings.ToLower`. -/
def ToLower (lib : Lib) (s : Str) : Str :=
  if isASCII s then
    if hasUpper s then s.map lowerByte else s
  else lib.unicodeLower s

/-! ## filter.go -/

/-- The function `filter`: a new slice with the strings of `items` that satisfy `f`. -/
def filter (items : List Str) (f : Str → Bool) : List Str :=
  items.foldl (fun filtered v => if f v then filtered ++ [v] else filtered) []

/-- The predicate passed by `filterExcept`: run through `except`, answer false at
the first entry equal to `s` after lower-casing both. -/
def notExcepted (lib : Lib) (except : List Str) (s : Str) : Bool :=
  match except with
  | [] => true
  | ex :: rest => if ToLower lib s = ToLower lib ex then false else notExcepted lib rest s

/-- The function `filterExcept`. -/
def filterExcept (lib : Lib) (items except : List Str) : List Str :=
  filter items (notExcepted lib except)

/-! ## error.go -/

/-- A non-nil Go `error`: either a `*DriverError` or any other error, of which
only its message is kept. -/
inductive GoError where
  /-- An error that is not a `*DriverError`, with its `Error()` text. -/
  | plain (msg : Str)
  /-- The value `&DriverError{Info: info, Err: err}`. -/
  | driver (info : Str) (err : GoError)
  deriving DecidableEq, Repr

/-- The method `Error()`; for a `*DriverError` it is `e.Info + ": " + e.Err.Error()`. -/
def GoError.Error : GoError → Str
  | .plain msg => msg
  | .driver info err => info ++ lit ": " ++ err.Error

/-- The function `UnderlyingError`. -/
def UnderlyingError (err : GoError) : GoError :=
  match err with
  | .driver _ e => e
  | e => e

/-! ## The bytes package: `TrimSpace` and `HasPrefix` -/

/-- The constant `utf8.RuneError`. -/
def RuneError : Nat := 0xFFFD

/-- The range `locb..hicb` of UTF-8 continuation bytes. -/
def isCont (b : Nat) : Bool := decide (0x80 ≤ b ∧ b ≤ 0xBF)

/-- The second-byte range `acceptRanges[first[p0] >> 4]` of a leading byte. -/
def acceptLo (p0 : Nat) : Nat := if p0 = 0xE0 then 0xA0 else if p0 = 0xF0 then 0x90 else 0x80

/-- The upper end of the second-byte range of a leading byte. -/
def acceptHi (p0 : Nat) : Nat := if p0 = 0xED then 0x9F else if p0 = 0xF4 then 0x8F else 0xBF

/-- The function `utf8.DecodeRune`: the first rune of `p` and its width in bytes;
`(RuneError, 0)` for empty input and `(RuneError, 1)` for an invalid encoding. -/
def DecodeRune (p : Str) : Nat × Nat :=
  match p with
  | [] => (RuneError, 0)
  | p0 :: rest =>
    if p0 < 0x80 then (p0, 1)
    else if 0xC2 ≤ p0 ∧ p0 ≤ 0xDF then
      match rest with
      | b1 :: _ =>
        if acceptLo p0 ≤ b1 ∧ b1 ≤ acceptHi p0 then ((p0 % 0x20) * 0x40 + b1 % 0x40, 2)
        else (RuneError, 1)
      | [] => (RuneError, 1)
    else if 0xE0 ≤ p0 ∧ p0 ≤ 0xEF then
      match rest with
      | b1 :: b2 :: _ =>
        if acceptLo p0 ≤ b1 ∧ b1 ≤ acceptHi p0 then
          if isCont b2 then ((p0 % 0x10) * 0x1000 + (b1 % 0x40) * 0x40 + b2 % 0x40, 3)
          else (RuneError, 1)
        else (RuneError, 1)
      | _ => (RuneError, 1)
    else if 0xF0 ≤ p0 ∧ p0 ≤ 0xF4 then
      match rest with
      | b1 :: b2 :: b3 :: _ =>
        if acceptLo p0 ≤ b1 ∧ b1 ≤ acceptHi p0 then
          if isCont b2 then
            if isCont b3 then
              ((p0 % 0x08) * 0x40000 + (b1 % 0x40) * 0x1000 + (b2 % 0x40) * 0x40 + b3 % 0x40, 4)
            else (RuneError, 1)
          else (RuneError, 1)
        else (RuneError, 1)
      | _ => (RuneError, 1)
    else (RuneError, 1)

/-- The function `utf8.RuneStart`: `b` is not a continuation byte. -/
def RuneStart (b : Nat) : Bool := decide (b / 0x40 % 4 ≠ 2)

/-- The backward loop of `utf8.DecodeLastRune`: from `start`, step down to the
nearest byte that starts a rune, giving up below `lim`.  The result is the
value of `start` after the loop, `none` standing for `lim - 1`. -/
def backUp (p : Str) (lim : Nat) : Nat → Option Nat
  | 0 => if lim = 0 ∧ RuneStart (p.getD 0 0) then some 0 else none
  | start + 1 =>
    if start + 1 < lim then none
    else if RuneStart (p.getD (start + 1) 0) then some (start + 1)
    else backUp p lim start

/-- The value of `start` in `utf8.DecodeLastRune` when the last byte is not
ASCII: the loop `backUp` run from `len(p) - 2` with `lim = max(len(p) - 4, 0)`,
and a negative result replaced by 0. -/
def lastStart (p : Str) : Nat :=
  if p.length - 1 = 0 then 0
  else match backUp p (p.length - 4) (p.length - 2) with
    | some s => s
    | none => if p.length - 4 = 0 then 0 else p.length - 4 - 1

/-- The function `utf8.DecodeLastRune`: the last rune of `p` and its width. -/
def DecodeLastRune (p : Str) : Nat × Nat :=
  if p.length = 0 then (RuneError, 0)
  else if p.getD (p.length - 1) 0 < 0x80 then (p.getD (p.length - 1) 0, 1)
  else if lastStart p + (DecodeRune (p.drop (lastStart p))).2 ≠ p.length then (RuneError, 1)
  else DecodeRune (p.drop (lastStart p))

/-- The function `unicode.IsSpace`. -/
def IsSpace (r : Nat) : Bool :=
  if r ≤ 0xFF then
    decide (r = 0x09 ∨ r = 0x0A ∨ r = 0x0B ∨ r = 0x0C ∨ r = 0x0D ∨ r = 0x20 ∨ r = 0x85 ∨ r = 0xA0)
  else
    decide (r = 0x1680 ∨ (0x2000 ≤ r ∧ r ≤ 0x200A) ∨ r = 0x2028 ∨ r = 0x2029 ∨ r = 0x202F
      ∨ r = 0x205F ∨ r = 0x3000)

/-- The loop of `bytes.indexFunc(s, unicode.IsSpace, false)`: the index of the
first rune at or after `start` that is not white space, `none` for `-1`.
Every round moves `start` forward, so `fuel = len(s)` rounds are enough. -/
def indexFunc (s : Str) : Nat → Nat → Option Nat
  | 0, _ => none
  | fuel + 1, start =>
    if start < s.length then
      let c := s.getD start 0
      let d := if c < 0x80 then (c, 1) else DecodeRune (s.drop start)
      if IsSpace d.1 = false then some start else indexFunc s fuel (start + d.2)
    else none

/-- The loop of `bytes.lastIndexFunc(s, unicode.IsSpace, false)`: the index at
which the last rune before `i` that is not white space begins, `none` for `-1`. -/
def lastIndexFunc (s : Str) : Nat → Nat → Option Nat
  | 0, _ => none
  | fuel + 1, i =>
    if 0 < i then
      let c := s.getD (i - 1) 0
      let d := if c < 0x80 then (c, 1) else DecodeLastRune (s.take i)
      if IsSpace d.1 = false then some (i - d.2) else lastIndexFunc s fuel (i - d.2)
    else none

/-- The function `bytes.TrimLeftFunc(s, unicode.IsSpace)`. -/
def TrimLeftFunc (s : Str) : Str :=
  match indexFunc s s.length 0 with
  | none => []
  | some i => s.drop i

/-- The function `bytes.TrimRightFunc(s, unicode.IsSpace)`. -/
def TrimRightFunc (s : Str) : Str :=
  match lastIndexFunc s s.length s.length with
  | some i =>
    if 0x80 ≤ s.getD i 0 then s.take (i + (DecodeRune (s.drop i)).2) else s.take (i + 1)
  | none => s.take 0

/-- The function `bytes.TrimSpace`, which is `TrimFunc(s, unicode.IsSpace)`: the
leading and the trailing white space, as defined by Unicode, sliced off. -/
def TrimSpace (s : Str) : Str := TrimRightFunc (TrimLeftFunc s)

/-- The function `bytes.HasPrefix`. -/
def HasPrefixBytes (s pre : Str) : Bool :=
  decide (pre.length ≤ s.length) && decide (s.take pre.length = pre)

/-! ## migrathor.go: pure parts -/

/-- The transaction suppressor flag. -/
def noTransaction : Str := lit "-- migrathor:no_transaction"

/-- The function `txSupported`. -/
def txSupported (s : Str) : Bool :=
  HasPrefixBytes (TrimSpace s) noTransaction == false

/-- The loop of `filepath.Ext`, run over the reversed path: the suffix from the
last dot of the final path element, empty if there is no dot. -/
def extLoop : Str → Str → Str
  | [], _ => []
  | c :: before, suffix =>
    if c = 0x2F then []
    else if c = 0x2E then c :: suffix
    else extLoop before (c :: suffix)

/-- The function `filepath.Ext`. -/
def Ext (path : Str) : Str := extLoop path.reverse []

/-! ## The collaborators: file system, database, clock and logger -/

/-- The value carried by a Go panic (never nil: since Go 1.21 `panic(nil)` raises
a non-nil `*runtime.PanicNilError`). -/
abbrev PanicValue := Str

/-- How a Go call ends: it returns a value, or it panics. -/
inductive Res (α : Type) where
  /-- The call returned `a`. -/
  | ret (a : α)
  /-- The call panicked with value `p`. -/
  | panic (p : PanicValue)
  deriving DecidableEq, Repr

/-- A row of the history table (the columns `id` and `applied_at` are filled in
by the database and are not kept). -/
structure Row where
  /-- Column `migration TEXT NOT NULL UNIQUE`. -/
  migration : Str
  /-- Column `execution_time REAL NOT NULL`. -/
  execution_time : Nat
  deriving DecidableEq, Repr

/-- A database state: everything but the history table (`schema`), and the rows
of the history table in `id` order, `none` when the table does not exist. -/
structure DB (S : Type) where
  /-- All tables and data other than the history table. -/
  schema : S
  /-- The history table. -/
  history : Option (List Row)
  deriving DecidableEq, Repr

/-- An entry of a directory listing (`os.FileInfo`). -/
structure DirEntry where
  /-- The result of `Name()`. -/
  name : Str
  /-- The result of `IsDir()`. -/
  isDir : Bool
  deriving DecidableEq, Repr

/-- The argument of one call of the logger. -/
inductive LogArg where
  /-- The call `logger(text)`. -/
  | str (text : Str)
  /-- The call `logger(err)`. -/
  | err (e : GoError)
  deriving DecidableEq, Repr

/-- One operation performed on a collaborator, with whether it succeeded. -/
inductive Event where
  /-- The call `ioutil.ReadDir(path)`. -/
  | readDir (path : Str) (ok : Bool)
  /-- The call `ioutil.ReadFile(path)`. -/
  | readFile (path : Str) (ok : Bool)
  /-- The existence query of `initialized`. -/
  | queryExists (ok : Bool)
  /-- The query of `applied`. -/
  | queryApplied (ok : Bool)
  /-- The call `rows.Close()`. -/
  | closeRows (ok : Bool)
  /-- The call `db.BeginTx`. -/
  | beginTx (ok : Bool)
  /-- The call `tx.ExecContext(ctx, script)` with a migration script. -/
  | txExec (script : Str) (ok : Bool)
  /-- The call `tx.ExecContext(ctx, cmd)` with the `CREATE TABLE` command. -/
  | txCreate (ok : Bool)
  /-- The call `tx.ExecContext(ctx, insertCmd, migration, duration)`. -/
  | txInsert (migration : Str) (ok : Bool)
  /-- The call `tx.Commit()`. -/
  | commit (ok : Bool)
  /-- The call `tx.Rollback()`. -/
  | rollback (ok : Bool)
  /-- The call `db.ExecContext(ctx, script)` with a migration script. -/
  | dbExec (script : Str) (ok : Bool)
  /-- The call `db.ExecContext(ctx, insertCmd, migration, duration)`. -/
  | dbInsert (migration : Str) (ok : Bool)
  /-- A call of the logger. -/
  | log (arg : LogArg)
  deriving DecidableEq, Repr

/-- A failure of the existence query: `sql.ErrNoRows` or another error. -/
inductive ScanFault where
  /-- The error `sql.ErrNoRows`. -/
  | noRows
  /-- Any other error. -/
  | other (e : GoError)
  deriving DecidableEq, Repr

/-- A failure of the query of `applied`, by the place where it is reported. -/
inductive QueryFault where
  /-- The call `db.QueryContext` failed. -/
  | query (e : GoError)
  /-- A call `rows.Scan` failed. -/
  | scan (e : GoError)
  /-- The final `rows.Err()` is not nil. -/
  | rows (e : GoError)
  deriving DecidableEq, Repr

/-- The outcomes that the code does not control.  Each oracle is asked with the
number of operations performed so far, so any sequence of outcomes can occur. -/
structure Env (S : Type) where
  /-- Outcome of `ioutil.ReadDir`. -/
  readDir : Nat → Str → Except GoError (List DirEntry)
  /-- Outcome of `ioutil.ReadFile`. -/
  readFile : Nat → Str → Except GoError Str
  /-- Failure of the existence query, if any. -/
  existsFault : Nat → Option ScanFault
  /-- Failure of the query of `applied`, if any. -/
  queryFault : Nat → Option QueryFault
  /-- Failure of `rows.Close()`, if any. -/
  closeFault : Nat → Option GoError
  /-- Failure of `db.BeginTx`, if any. -/
  beginFault : Nat → Option GoError
  /-- What executing a script does to the database state it runs against, and
  the error it reports, if any. -/
  runScript : Nat → Str → DB S → Option GoError × DB S
  /-- Failure of the `CREATE TABLE` command, if any. -/
  createFault : Nat → Option GoError
  /-- Failure of the history insert other than by the state of the table. -/
  insertFault : Nat → Option GoError
  /-- Failure of `tx.Commit()`, if any; the transaction is then not committed. -/
  commitFault : Nat → Option GoError
  /-- Failure reported by `tx.Rollback()`, if any. -/
  rollbackFault : Nat → Option GoError
  /-- The value of `time.Since(start)`. -/
  since : Nat → Nat

/-- The world the package acts on: the committed database state, the state seen
inside the open transaction (if one is open), and the operations so far. -/
structure World (S : Type) where
  /-- The committed (persisted) database state. -/
  db : DB S
  /-- The working state of the open transaction. -/
  tx : Option (DB S)
  /-- The operations performed so far, oldest first. -/
  trace : List Event
  deriving DecidableEq, Repr

/-- The number of operations performed so far. -/
def World.now {S : Type} (w : World S) : Nat := w.trace.length

/-- Record an operation. -/
def World.push {S : Type} (w : World S) (e : Event) : World S :=
  { w with trace := w.trace ++ [e] }

/-- The error of a statement that names a missing table. -/
def errUndefinedTable : GoError := .plain (lit "pq: relation does not exist")

/-- The error of an insert that violates the unique constraint on `migration`. -/
def errUniqueViolation : GoError :=
  .plain (lit "pq: duplicate key value violates unique constraint")

/-- The error `sql.ErrTxDone` of a statement on a finished transaction. -/
def errTxDone : GoError :=
  .plain (lit "sql: transaction has already been committed or rolled back")

/-- The effect of the history insert on a database state. -/
def insertRow {S : Type} (fault : Option GoError) (migration : Str) (duration : Nat)
    (d : DB S) : Option GoError × DB S :=
  match fault with
  | some e => (some e, d)
  | none =>
    match d.history with
    | none => (some errUndefinedTable, d)
    | some rows =>
      if migration ∈ rows.map Row.migration then (some errUniqueViolation, d)
      else (none, { d with history := some (rows ++ [⟨migration, duration⟩]) })

/-- The effect of `CREATE TABLE IF NOT EXISTS` on a database state. -/
def createTable {S : Type} (fault : Option GoError) (d : DB S) : Option GoError × DB S :=
  match fault with
  | some e => (some e, d)
  | none => (none, { d with history := some (d.history.getD []) })

/-- The call `ioutil.ReadDir(path)`. -/
def ReadDir {S : Type} (env : Env S) (path : Str) (w : World S) :
    Except GoError (List DirEntry) × World S :=
  match env.readDir w.now path with
  | .error e => (.error e, w.push (.readDir path false))
  | .ok nodes => (.ok nodes, w.push (.readDir path true))

/-- The call `ioutil.ReadFile(path)`. -/
def ReadFile {S : Type} (env : Env S) (path : Str) (w : World S) :
    Except GoError Str × World S :=
  match env.readFile w.now path with
  | .error e => (.error e, w.push (.readFile path false))
  | .ok buf => (.ok buf, w.push (.readFile path true))

/-- The call `db.BeginTx(ctx, nil)`. -/
def BeginTx {S : Type} (env : Env S) (w : World S) : Option GoError × World S :=
  match env.beginFault w.now with
  | some e => (some e, w.push (.beginTx false))
  | none => (none, { w with tx := some w.db, trace := w.trace ++ [.beginTx true] })

/-- The call `tx.Commit()`: the working state becomes the committed state
unless the commit fails. -/
def Commit {S : Type} (env : Env S) (w : World S) : Option GoError × World S :=
  match env.commitFault w.now with
  | some e => (some e, { w with tx := none, trace := w.trace ++ [.commit false] })
  | none => (none, { db := w.tx.getD w.db, tx := none, trace := w.trace ++ [.commit true] })

/-- The call `tx.Rollback()`: the working state is dropped. -/
def Rollback {S : Type} (env : Env S) (w : World S) : Option GoError × World S :=
  match env.rollbackFault w.now with
  | some e => (some e, { w with tx := none, trace := w.trace ++ [.rollback false] })
  | none => (none, { w with tx := none, trace := w.trace ++ [.rollback true] })

/-- The call `tx.ExecContext(ctx, script)` with a migration script. -/
def txExecScript {S : Type} (env : Env S) (script : Str) (w : World S) :
    Option GoError × World S :=
  match w.tx with
  | none => (some errTxDone, w.push (.txExec script false))
  | some d =>
    let r := env.runScript w.now script d
    (r.1, { w with tx := some r.2, trace := w.trace ++ [.txExec script r.1.isNone] })

/-- The call `tx.ExecContext(ctx, cmd)` with the `CREATE TABLE` command. -/
def txExecCreate {S : Type} (env : Env S) (w : World S) : Option GoError × World S :=
  match w.tx with
  | none => (some errTxDone, w.push (.txCreate false))
  | some d =>
    let r := createTable (env.createFault w.now) d
    (r.1, { w with tx := some r.2, trace := w.trace ++ [.txCreate r.1.isNone] })

/-- The call `tx.ExecContext(ctx, insertCmd, migration, duration)`. -/
def txExecInsert {S : Type} (env : Env S) (migration : Str) (duration : Nat) (w : World S) :
    Option GoError × World S :=
  match w.tx with
  | none => (some errTxDone, w.push (.txInsert migration false))
  | some d =>
    let r := insertRow (env.insertFault w.now) migration duration d
    (r.1, { w with tx := some r.2, trace := w.trace ++ [.txInsert migration r.1.isNone] })

/-- The call `db.ExecContext(ctx, script)` with a migration script, outside any
transaction: it acts on the committed state. -/
def dbExecScript {S : Type} (env : Env S) (script : Str) (w : World S) :
    Option GoError × World S :=
  let r := env.runScript w.now script w.db
  (r.1, { w with db := r.2, trace := w.trace ++ [.dbExec script r.1.isNone] })

/-- The call `db.ExecContext(ctx, insertCmd, migration, duration)`. -/
def dbExecInsert {S : Type} (env : Env S) (migration : Str) (duration : Nat) (w : World S) :
    Option GoError × World S :=
  let r := insertRow (env.insertFault w.now) migration duration w.db
  (r.1, { w with db := r.2, trace := w.trace ++ [.dbInsert migration r.1.isNone] })

/-- A call of the logger. -/
def logger {S : Type} (arg : LogArg) (w : World S) : World S := w.push (.log arg)

/-! ## migrathor.go: the engine -/

/-- The fields of `Migration` that the engine reads (the logger is the world's
log, the filename formatter is used by `Create` only). -/
structure Migration where
  /-- The migration directory. -/
  path : Str
  /-- The name of the history table. -/
  table : Str
  deriving DecidableEq, Repr

/-- The loop of `strings.Fields`: split around runs of white space. `cur` is the
field being read, if any. -/
def fieldsLoop : Nat → Str → Option Str → List Str → List Str
  | 0, _, cur, acc => acc ++ cur.toList
  | fuel + 1, s, cur, acc =>
    match s with
    | [] => acc ++ cur.toList
    | c :: _ =>
      let d := if c < 0x80 then (c, 1) else DecodeRune s
      if IsSpace d.1 then fieldsLoop fuel (s.drop d.2) none (acc ++ cur.toList)
      else fieldsLoop fuel (s.drop d.2) (some (cur.getD [] ++ s.take d.2)) acc

/-- The function `strings.Fields`. -/
def Fields (s : Str) : List Str := fieldsLoop s.length s none []

/-- The function `strings.Join(elems, " ")`. -/
def joinSpace (elems : List Str) : Str := List.intercalate (lit " ") elems

/-- The statement `insertCmd` of `apply`. -/
def insertCmd (m : Migration) : Str :=
  lit "INSERT INTO " ++ m.table ++ lit " (migration, execution_time) VALUES ($1, $2);"

/-- The error built when the history insert fails. -/
def insertError (m : Migration) (lib : Lib) (err : GoError) : GoError :=
  .driver (lit "failed to execute SQL statement " ++ lib.quote (joinSpace (Fields (insertCmd m)))) err

/-- The function `transaction`.  Its result parameter is unnamed, so `return err`
stores the value of `err` as the result before the deferred function runs; the
deferred `err = tx.Commit()` then changes the local variable only. -/
def transaction {S : Type} (env : Env S)
    (txFunc : World S → Res (Option GoError) × World S) (w : World S) :
    Res (Option GoError) × World S :=
  match BeginTx env w with
  | (some err, w1) => (.ret (some (.driver (lit "failed to begin db transaction") err)), w1)
  | (none, w1) =>
    match txFunc w1 with
    | (.panic p, w2) =>
      let r := Rollback env w2
      let w3 := match r.1 with
        | some e => logger (.err e) r.2
        | none => r.2
      (.panic p, w3)
    | (.ret err, w2) =>
      let result := err
      match err with
      | some _ =>
        let r := Rollback env w2
        let w3 := match r.1 with
          | some e => logger (.err e) r.2
          | none => r.2
        (.ret result, w3)
      | none =>
        let r := Commit env w2
        (.ret result, r.2)

/-- The function literal that `apply` passes to `transaction`. -/
def txBody {S : Type} (m : Migration) (lib : Lib) (env : Env S) (path buf migration : Str)
    (w : World S) : Res (Option GoError) × World S :=
  match txExecScript env buf w with
  | (some err, w1) => (.ret (some (.driver (lit "failed to execute SQL script " ++ path) err)), w1)
  | (none, w1) =>
    match txExecInsert env migration (env.since w1.now) w1 with
    | (some err, w2) => (.ret (some (insertError m lib err)), w2)
    | (none, w2) => (.ret none, w2)

/-- One round of the loop of `apply`, for the pending file `migration`: the
error with which `apply` returns in this round, or `none` when the round runs
through to `applied = append(applied, migration)`. -/
def applyOne {S : Type} (m : Migration) (lib : Lib) (env : Env S) (migration : Str)
    (w : World S) : Res (Option GoError) × World S :=
  let path := lib.joinPath m.path migration
  match ReadFile env path w with
  | (.error err, w1) =>
    (.ret (some (.plain (lit "failed to read file contents of " ++ lib.quote path
      ++ lit ": " ++ err.Error))), w1)
  | (.ok buf, w1) =>
    if txSupported buf then
      transaction env (txBody m lib env path buf migration) w1
    else
      match dbExecScript env buf w1 with
      | (some err, w2) => (.ret (some (.driver (lit "failed to execute SQL script " ++ path) err)), w2)
      | (none, w2) =>
        match dbExecInsert env migration (env.since w2.now) w2 with
        | (some err, w3) => (.ret (some (insertError m lib err)), w3)
        | (none, w3) => (.ret none, w3)

/-- The loop of `apply`, with the slice `applied` built so far. -/
def applyLoop {S : Type} (m : Migration) (lib : Lib) (env : Env S) :
    List Str → List Str → World S → Res (List Str × Option GoError) × World S
  | [], applied, w => (.ret (applied, none), w)
  | migration :: rest, applied, w =>
    match applyOne m lib env migration w with
    | (.panic p, w1) => (.panic p, w1)
    | (.ret (some err), w1) => (.ret (applied, some err), w1)
    | (.ret none, w1) => applyLoop m lib env rest (applied ++ [migration]) w1

/-- The method `apply`. -/
def apply {S : Type} (m : Migration) (lib : Lib) (env : Env S) (pending : List Str)
    (w : World S) : Res (List Str × Option GoError) × World S :=
  applyLoop m lib env pending [] w

/-- The loop of `available` over the directory entries. -/
def availableLoop (nodes : List DirEntry) : List Str :=
  nodes.foldl (fun migrationFiles node =>
    if node.isDir then migrationFiles
    else if Ext node.name ≠ lit ".sql" then migrationFiles
    else migrationFiles ++ [node.name]) []

/-- The method `available`. -/
def available {S : Type} (m : Migration) (lib : Lib) (env : Env S) (w : World S) :
    Except GoError (List Str) × World S :=
  match ReadDir env m.path w with
  | (.error err, w1) =>
    (.error (.plain (lit "failed to get list of migration files from " ++ lib.quote m.path
      ++ lit ": " ++ err.Error)), w1)
  | (.ok nodes, w1) => (.ok (availableLoop nodes), w1)

/-- The method `initialized`: the pair `(exist, err)` it returns. -/
def initialized {S : Type} (env : Env S) (w : World S) : (Bool × Option GoError) × World S :=
  match env.existsFault w.now with
  | some .noRows => ((false, none), w.push (.queryExists false))
  | some (.other err) =>
    ((false, some (.driver (lit "failed to verify existence of history table") err)),
      w.push (.queryExists false))
  | none => ((w.db.history.isSome, none), w.push (.queryExists true))

/-- The method `initialize`. -/
def initializeHistory {S : Type} (env : Env S) (w : World S) : Res (Option GoError) × World S :=
  transaction env (fun w1 =>
    match txExecCreate env w1 with
    | (some err, w2) => (.ret (some (.driver (lit "failed to create history table") err)), w2)
    | (none, w2) => (.ret none, w2)) w

/-- The function `logCloser`, applied to the rows of a query. -/
def logCloser {S : Type} (env : Env S) (w : World S) : World S :=
  match env.closeFault w.now with
  | some err => logger (.str (lit "failed to close handle: " ++ err.Error)) (w.push (.closeRows false))
  | none => w.push (.closeRows true)

/-- The method `applied`: the names in the history table, ordered by `id`. -/
def applied {S : Type} (env : Env S) (w : World S) : Except GoError (List Str) × World S :=
  match env.queryFault w.now, w.db.history with
  | some (.query err), _ =>
    (.error (.driver (lit "failed to query applied migrations") err), w.push (.queryApplied false))
  | _, none =>
    (.error (.driver (lit "failed to query applied migrations") errUndefinedTable),
      w.push (.queryApplied false))
  | some (.scan err), some (_ :: _) =>
    (.error (.driver (lit "failed to row scan entry in query for applied migrations") err),
      logCloser env (w.push (.queryApplied false)))
  | some (.rows err), some _ =>
    (.error (.driver (lit "failed to query applied migrations") err),
      logCloser env (w.push (.queryApplied false)))
  | _, some rows => (.ok (rows.map Row.migration), logCloser env (w.push (.queryApplied true)))

/-- The part of `Apply` from the directory listing on. -/
def ApplyPending {S : Type} (m : Migration) (lib : Lib) (env : Env S) (w : World S) :
    Res (List Str × Option GoError) × World S :=
  match available m lib env w with
  | (.error err, w1) => (.ret ([], some err), w1)
  | (.ok avail, w1) =>
    match applied env w1 with
    | (.error err, w2) => (.ret ([], some err), w2)
    | (.ok done, w2) =>
      let pending := filterExcept lib avail done
      if pending.length = 0 then (.ret ([], none), w2)
      else apply m lib env (sortStrings pending) w2

/-- The method `Apply`. -/
def Apply {S : Type} (m : Migration) (lib : Lib) (env : Env S) (w : World S) :
    Res (List Str × Option GoError) × World S :=
  match initialized env w with
  | ((_, some err), w1) => (.ret ([], some err), w1)
  | ((exist, none), w1) =>
    if exist = false then
      match initializeHistory env w1 with
      | (.panic p, w2) => (.panic p, w2)
      | (.ret (some err), w2) => (.ret ([], some err), w2)
      | (.ret none, w2) =>
        ApplyPending m lib env (logger (.str (lit "History table created successfully.")) w2)
    else ApplyPending m lib env w1

/-! ## Reading a trace -/

/-- The operations `apply` performs for a pending file that can make it stop:
reading the file, opening the transaction, executing the script, inserting the
history row. -/
def Event.isFileOp : Event → Bool
  | .readFile _ _ => true
  | .beginTx _ => true
  | .txExec _ _ => true
  | .txInsert _ _ => true
  | .dbExec _ _ => true
  | .dbInsert _ _ => true
  | _ => false

/-- The success flag of an operation (a call of the logger cannot fail). -/
def Event.ok : Event → Bool
  | .readDir _ ok => ok
  | .readFile _ ok => ok
  | .queryExists ok => ok
  | .queryApplied ok => ok
  | .closeRows ok => ok
  | .beginTx ok => ok
  | .txExec _ ok => ok
  | .txCreate ok => ok
  | .txInsert _ ok => ok
  | .commit ok => ok
  | .rollback ok => ok
  | .dbExec _ ok => ok
  | .dbInsert _ ok => ok
  | .log _ => true

/-- The per-file operations of a trace, in order. -/
def fileOps (tr : List Event) : List Event := tr.filter Event.isFileOp

/-- The paths of the files read in a trace, in order. -/
def reads : List Event → List Str
  | [] => []
  | .readFile path _ :: tr => path :: reads tr
  | _ :: tr => reads tr

/-- What a trace segment says about a run: with `failed` the last per-file
operation failed and all before it succeeded, without it all succeeded. -/
def StopsAtFailure (tl : List Event) (failed : Bool) : Prop :=
  if failed then ∃ ops op, fileOps tl = ops ++ [op] ∧ op.ok = false ∧ ∀ e ∈ ops, e.ok = true
  else ∀ e ∈ fileOps tl, e.ok = true

/-- Is the event a call of `tx.Commit()` or `tx.Rollback()`? -/
def Event.isEnd : Event → Bool
  | .commit _ => true
  | .rollback _ => true
  | _ => false

/-- Does the event change or try to change the database (transaction control,
script execution, table creation, history insert)? -/
def Event.isWrite : Event → Bool
  | .beginTx _ => true
  | .txExec _ _ => true
  | .txCreate _ => true
  | .txInsert _ _ => true
  | .commit _ => true
  | .rollback _ => true
  | .dbExec _ _ => true
  | .dbInsert _ _ => true
  | _ => false

/-! ## Sample values -/

/-- A library instance: identity on non-ASCII strings, paths joined with a
slash, quoting by surrounding double quotes. -/
def demoLib : Lib where
  unicodeLower := id
  joinPath := fun dir name => dir ++ lit "/" ++ name
  quote := fun s => lit "\"" ++ s ++ lit "\""

/-- A migration directory `db` with the default history table. -/
def demoMigration : Migration := ⟨lit "db", lit "migrations"⟩

/-- An environment in which nothing fails: the directory holds `B.sql`, `A.sql`,
a subdirectory and a text file; each script counts up the schema. -/
def demoEnv : Env Nat where
  readDir := fun _ _ =>
    .ok [⟨lit "B.sql", false⟩, ⟨lit "A.sql", false⟩, ⟨lit "sub.sql", true⟩, ⟨lit "x.txt", false⟩]
  readFile := fun _ path => .ok (lit "CREATE TABLE " ++ path)
  existsFault := fun _ => none
  queryFault := fun _ => none
  closeFault := fun _ => none
  beginFault := fun _ => none
  runScript := fun _ _ d => (none, { d with schema := d.schema + 1 })
  createFault := fun _ => none
  insertFault := fun _ => none
  commitFault := fun _ => none
  rollbackFault := fun _ => none
  since := fun _ => 7

/-- An error of the database driver. -/
def boom : GoError := .plain (lit "pq: connection lost")

/-- A fresh database: no history table, no open transaction, nothing done yet. -/
def freshWorld : World Nat := ⟨⟨0, none⟩, none, []⟩

/-- A database with an empty history table. -/
def emptyWorld : World Nat := ⟨⟨0, some []⟩, none, []⟩

/-- The environment `demoEnv` with every `tx.Commit()` failing. -/
def commitFailEnv : Env Nat := { demoEnv with commitFault := fun _ => some boom }

/-- The environment `demoEnv` with every script failing and every
`tx.Rollback()` reporting an error. -/
def rollbackFailEnv : Env Nat :=
  { demoEnv with
    runScript := fun _ _ d => (some (.plain (lit "pq: syntax error")), d)
    rollbackFault := fun _ => some boom }

/-- A unit of work that does nothing and returns nil. -/
def workOk (w : World Nat) : Res (Option GoError) × World Nat := (.ret none, w)

/-- A unit of work that does nothing and returns an error. -/
def workErr (w : World Nat) : Res (Option GoError) × World Nat :=
  (.ret (some (.plain (lit "wrong syntax"))), w)

/-- Spec wording: the first line of a file content, the bytes before the first
line feed. -/
def firstLine (s : Str) : Str := s.takeWhile (fun c => decide (c ≠ 0x0A))

/-- The environment `demoEnv` with the commit of the first migration failing
(the ninth operation of an `Apply` on `emptyWorld`). -/
def firstCommitFailEnv : Env Nat :=
  { demoEnv with commitFault := fun t => if t = 8 then some boom else none }

/-- Is the event an operation on a transaction (begin, statement inside it,
commit, rollback)? -/
def Event.isTx : Event → Bool
  | .beginTx _ => true
  | .txExec _ _ => true
  | .txCreate _ => true
  | .txInsert _ _ => true
  | .commit _ => true
  | .rollback _ => true
  | _ => false

/-- The environment `demoEnv` with every history insert failing. -/
def insertFailEnv : Env Nat := { demoEnv with insertFault := fun _ => some boom }

/-- The environment `insertFailEnv` with every file carrying the opt-out marker. -/
def optOutEnv : Env Nat :=
  { insertFailEnv with readFile := fun _ _ => .ok (lit "-- migrathor:no_transaction\nVACUUM log;") }

/-- The function `strings.Contains`: does `sub` occur in `s`? -/
def Contains : Str → Str → Bool
  | [], sub => HasPrefixBytes [] sub
  | c :: s, sub => HasPrefixBytes (c :: s) sub || Contains s sub

/-- Spec wording: the extension of a name, the suffix from its last dot, empty
when the name has no dot. -/
def lastDotSuffix (name : Str) : Str :=
  if 0x2E ∈ name then
    0x2E :: (name.reverse.takeWhile (fun c => decide (c ≠ 0x2E))).reverse
  else []

/-! # Theorems -/

/-! ## The order of `sort.Strings` -/

theorem strLess_irrefl (a : Str) : strLess a a = false := by
  induction a with
  | nil => rfl
  | cons x xs ih => simp [strLess, ih]

theorem strLess_asymm (a b : Str) : strLess a b = true → strLess b a = false := by
  induction a generalizing b with
  | nil => cases b <;> simp [strLess]
  | cons x xs ih =>
    cases b with
    | nil => simp [strLess]
    | cons y ys =>
      simp only [strLess]
      by_cases hxy : x < y
      · intro _
        rw [if_neg (by omega), if_pos hxy]
      · rw [if_neg hxy]
        by_cases hyx : y < x
        · simp [hyx]
        · rw [if_neg hyx, if_neg hyx, if_neg hxy]
          exact ih ys

theorem strLess_trans (a b c : Str) :
    strLess a b = true → strLess b c = true → strLess a c = true := by
  induction a generalizing b c with
  | nil =>
    cases b with
    | nil => simp [strLess]
    | cons y ys => cases c <;> simp [strLess]
  | cons x xs ih =>
    cases b with
    | nil => simp [strLess]
    | cons y ys =>
      cases c with
      | nil => simp [strLess]
      | cons z zs =>
        simp only [strLess]
        intro h1 h2
        by_cases hxy : x < y
        · by_cases hyz : y < z
          · rw [if_pos (by omega)]
          · rw [if_neg hyz] at h2
            by_cases hzy : z < y
            · simp [hzy] at h2
            · rw [if_pos (by omega)]
        · rw [if_neg hxy] at h1
          by_cases hyx : y < x
          · simp [hyx] at h1
          · rw [if_neg hyx] at h1
            have hxy2 : x = y := by omega
            subst hxy2
            by_cases hyz : x < z
            · rw [if_pos hyz]
            · rw [if_neg hyz] at h2 ⊢
              by_cases hzy : z < x
              · simp [hzy] at h2
              · rw [if_neg hzy] at h2 ⊢
                exact ih ys zs h1 h2

theorem strLess_connex (a b : Str) :
    strLess a b = false → strLess b a = false → a = b := by
  induction a generalizing b with
  | nil => cases b <;> simp [strLess]
  | cons x xs ih =>
    cases b with
    | nil => simp [strLess]
    | cons y ys =>
      simp only [strLess]
      intro h1 h2
      by_cases hxy : x < y
      · simp [hxy] at h1
      · rw [if_neg hxy] at h1
        by_cases hyx : y < x
        · simp [hyx] at h2
        · rw [if_neg hyx] at h1 h2
          rw [if_neg hxy] at h2
          have hxy2 : x = y := by omega
          rw [hxy2, ih ys h1 h2]

/-- The comparison `strLess` is the lexicographic order of byte sequences. -/
theorem strLess_iff_lex (a b : Str) : strLess a b = true ↔ List.Lex (· < ·) a b := by
  induction a generalizing b with
  | nil =>
    cases b with
    | nil => simp only [strLess]; constructor <;> intro h <;> cases h
    | cons y ys => simp only [strLess]; exact ⟨fun _ => List.Lex.nil, fun _ => trivial⟩
  | cons x xs ih =>
    cases b with
    | nil => simp only [strLess]; constructor <;> intro h <;> cases h
    | cons y ys =>
      simp only [strLess]
      by_cases hxy : x < y
      · rw [if_pos hxy]
        exact ⟨fun _ => List.Lex.rel hxy, fun _ => rfl⟩
      · rw [if_neg hxy]
        by_cases hyx : y < x
        · rw [if_pos hyx]
          constructor
          · intro h; cases h
          · intro h
            cases h with
            | rel h1 => exact absurd h1 hxy
            | cons _ => exact absurd hyx hxy
        · rw [if_neg hyx, ih ys]
          constructor
          · intro h
            have hxy2 : x = y := by omega
            subst hxy2
            exact List.Lex.cons h
          · intro h
            cases h with
            | rel h1 => exact absurd h1 hxy
            | cons h3 => exact h3

instance strLE_total : IsTotal Str strLE where
  total a b := by
    unfold strLE
    by_cases h : strLess a b = true
    · exact Or.inl (strLess_asymm a b h)
    · exact Or.inr (by simpa using h)

instance strLE_trans : IsTrans Str strLE where
  trans a b c := by
    unfold strLE
    intro h1 h2
    by_contra h
    have hca : strLess c a = true := by simpa using h
    by_cases hab : strLess a b = true
    · have := strLess_trans c a b hca hab
      simp [this] at h2
    · have hab2 : strLess a b = false := by simpa using hab
      have := strLess_connex a b hab2 h1
      subst this
      simp [hca] at h2

instance strLE_antisymm : IsAntisymm Str strLE where
  antisymm a b := by
    unfold strLE
    intro h1 h2
    exact strLess_connex a b h2 h1

/-! ## The pending list -/

theorem filter_loop (f : Str → Bool) (items acc : List Str) :
    items.foldl (fun filtered v => if f v then filtered ++ [v] else filtered) acc
      = acc ++ items.filter f := by
  induction items generalizing acc with
  | nil => simp
  | cons x xs ih =>
    simp only [List.foldl_cons, ih, List.filter_cons]
    by_cases h : f x = true <;> simp [h]

theorem filter_eq (items : List Str) (f : Str → Bool) : filter items f = items.filter f := by
  simp [filter, filter_loop]

theorem notExcepted_iff (lib : Lib) (except : List Str) (s : Str) :
    notExcepted lib except s = true ↔ ∀ e ∈ except, ToLower lib s ≠ ToLower lib e := by
  induction except with
  | nil => simp [notExcepted]
  | cons ex rest ih =>
    simp only [notExcepted, List.mem_cons, forall_eq_or_imp]
    by_cases h : ToLower lib s = ToLower lib ex
    · simp [h]
    · simp [h, ih]

theorem filterExcept_eq (lib : Lib) (items except : List Str) :
    filterExcept lib items except = items.filter (notExcepted lib except) := by
  simp [filterExcept, filter_eq]

theorem notExcepted_perm (lib : Lib) (e1 e2 : List Str) (h : e1.Perm e2) :
    notExcepted lib e1 = notExcepted lib e2 := by
  funext s
  rw [Bool.eq_iff_iff, notExcepted_iff, notExcepted_iff]
  exact ⟨fun hs e he => hs e (h.mem_iff.mpr he), fun hs e he => hs e (h.mem_iff.mp he)⟩

theorem sortStrings_sorted (xs : List Str) : (sortStrings xs).Sorted strLE :=
  List.sorted_insertionSort strLE xs

theorem sortStrings_perm (xs : List Str) : (sortStrings xs).Perm xs :=
  List.perm_insertionSort strLE xs

theorem sortStrings_eq_of_perm (xs ys : List Str) (h : xs.Perm ys) :
    sortStrings xs = sortStrings ys :=
  List.eq_of_perm_of_sorted
    (((sortStrings_perm xs).trans h).trans (sortStrings_perm ys).symm)
    (sortStrings_sorted xs) (sortStrings_sorted ys)

theorem ApplyPending_empty {S : Type} (m : Migration) (lib : Lib) (env : Env S)
    (w w1 w2 : World S) (avail done : List Str)
    (h1 : available m lib env w = (.ok avail, w1)) (h2 : applied env w1 = (.ok done, w2))
    (h3 : filterExcept lib avail done = []) :
    ApplyPending m lib env w = (.ret ([], none), w2) := by
  simp [ApplyPending, h1, h2, h3]

/-- C1: the pending list that `Apply` hands to `apply`, the sorted result of
`filterExcept`, holds exactly the available names that no applied name
equals after lower-casing, each as often as it occurs in `available`; it is
sorted ascending in the bytewise order of `strLess`; and when nothing is
pending `Apply` returns the empty list and a nil error. -/
theorem pending_exact_and_sorted {S : Type} (lib : Lib) (avail done : List Str) :
    (∀ x, (∀ e ∈ done, ToLower lib x ≠ ToLower lib e) →
        (sortStrings (filterExcept lib avail done)).count x = avail.count x) ∧
    (∀ x, (∃ e ∈ done, ToLower lib x = ToLower lib e) →
        x ∉ sortStrings (filterExcept lib avail done)) ∧
    List.Pairwise (fun a b => strLess b a = false) (sortStrings (filterExcept lib avail done)) ∧
    (∀ (m : Migration) (env : Env S) (w w1 w2 : World S),
        available m lib env w = (.ok avail, w1) → applied env w1 = (.ok done, w2) →
        filterExcept lib avail done = [] →
        ApplyPending m lib env w = (.ret ([], none), w2) ∧
        ∀ w0, initialized env w0 = ((true, none), w) →
          Apply m lib env w0 = (.ret ([], none), w2)) := by
  refine ⟨?_, ?_, ?_, ?_⟩
  · intro x hx
    simp only [List.count]
    rw [List.Perm.countP_eq _ (sortStrings_perm (filterExcept lib avail done)), filterExcept_eq,
      List.countP_filter]
    apply List.countP_congr
    intro y _
    by_cases hy : (y == x) = true
    · have hyx : y = x := by simpa using hy
      subst hyx
      simp [(notExcepted_iff lib done y).mpr hx]
    · simp [hy]
  · intro x hx hmem
    have hmem2 := (sortStrings_perm _).mem_iff.mp hmem
    rw [filterExcept_eq, List.mem_filter, notExcepted_iff] at hmem2
    obtain ⟨e, he, hxe⟩ := hx
    exact hmem2.2 e he hxe
  · exact sortStrings_sorted _
  · intro m env w w1 w2 h1 h2 h3
    have hp := ApplyPending_empty m lib env w w1 w2 avail done h1 h2 h3
    refine ⟨hp, ?_⟩
    intro w0 h0
    simp [Apply, h0, hp]

/-- C2: the sorted pending list does not depend on the order in which the
directory and the history are listed. -/
theorem pending_order_independent (lib : Lib) (avail avail' done done' : List Str)
    (h1 : avail'.Perm avail) (h2 : done'.Perm done) :
    sortStrings (filterExcept lib avail' done') = sortStrings (filterExcept lib avail done) := by
  apply sortStrings_eq_of_perm
  rw [filterExcept_eq, filterExcept_eq, notExcepted_perm lib done' done h2]
  exact h1.filter _

/-- C2 at a concrete input: three files listed in two orders, two history rows
listed in two orders. -/
theorem pending_order_independent_witness :
    ([lit "c.sql", lit "B.sql", lit "a.sql"].Perm [lit "a.sql", lit "B.sql", lit "c.sql"] ∧
      [lit "x.sql", lit "A.SQL"].Perm [lit "A.SQL", lit "x.sql"]) ∧
    sortStrings (filterExcept demoLib [lit "c.sql", lit "B.sql", lit "a.sql"]
        [lit "x.sql", lit "A.SQL"])
      = sortStrings (filterExcept demoLib [lit "a.sql", lit "B.sql", lit "c.sql"]
        [lit "A.SQL", lit "x.sql"]) :=
  ⟨⟨by decide, by decide⟩,
    pending_order_independent demoLib _ _ _ _ (by decide) (by decide)⟩

/-! ## Idempotence -/

@[simp] theorem now_push {S : Type} (w : World S) (e : Event) : (w.push e).now = w.now + 1 := by
  simp [World.push, World.now]

@[simp] theorem db_push {S : Type} (w : World S) (e : Event) : (w.push e).db = w.db := rfl

@[simp] theorem tx_push {S : Type} (w : World S) (e : Event) : (w.push e).tx = w.tx := rfl

@[simp] theorem trace_push {S : Type} (w : World S) (e : Event) :
    (w.push e).trace = w.trace ++ [e] := rfl

theorem filterExcept_after_apply (lib : Lib) (avail history : List Str) :
    filterExcept lib avail (history ++ sortStrings (filterExcept lib avail history)) = [] := by
  rw [filterExcept_eq, List.filter_eq_nil_iff]
  intro x hx
  rw [notExcepted_iff]
  intro hall
  by_cases hh : notExcepted lib history x = true
  · have hmem : x ∈ sortStrings (filterExcept lib avail history) := by
      rw [(sortStrings_perm _).mem_iff, filterExcept_eq, List.mem_filter]
      exact ⟨hx, hh⟩
    exact hall x (List.mem_append_right _ hmem) rfl
  · rw [notExcepted_iff] at hh
    push_neg at hh
    obtain ⟨e, he, hxe⟩ := hh
    exact hall e (List.mem_append_left _ he) hxe

theorem logCloser_db {S : Type} (env : Env S) (w : World S) : (logCloser env w).db = w.db := by
  unfold logCloser
  split <;> simp [logger]

theorem logCloser_trace {S : Type} (env : Env S) (w : World S) :
    ∃ tl, (logCloser env w).trace = w.trace ++ tl ∧ ∀ e ∈ tl, e.isWrite = false := by
  unfold logCloser
  split
  next err _ =>
    exact ⟨[.closeRows false, .log (.str (lit "failed to close handle: " ++ err.Error))],
      by simp [logger], by simp [Event.isWrite]⟩
  next => exact ⟨[.closeRows true], by simp, by simp [Event.isWrite]⟩

/-- C9: once every pending migration is recorded, nothing is pending any more:
`filterExcept(available, history ++ sort(filterExcept(available, history)))`
is empty, and an `Apply` that finds this history and the same directory
returns the empty list and a nil error, leaves the database as it is and
performs no transaction, script execution or insert. -/
theorem second_apply_is_empty {S : Type} (m : Migration) (lib : Lib) (env : Env S)
    (avail history : List Str) :
    filterExcept lib avail (history ++ sortStrings (filterExcept lib avail history)) = [] ∧
    ∀ (w : World S) (rows : List Row) (nodes : List DirEntry),
      w.db.history = some rows →
      rows.map Row.migration = history ++ sortStrings (filterExcept lib avail history) →
      env.existsFault w.now = none →
      env.readDir (w.now + 1) m.path = .ok nodes →
      availableLoop nodes = avail →
      env.queryFault (w.now + 2) = none →
      (Apply m lib env w).1 = .ret ([], none) ∧ (Apply m lib env w).2.db = w.db ∧
      ∃ tl, (Apply m lib env w).2.trace = w.trace ++ tl ∧ ∀ e ∈ tl, e.isWrite = false := by
  refine ⟨filterExcept_after_apply lib avail history, ?_⟩
  intro w rows nodes hrows hnames hex hdir havail hq
  have hinit : initialized env w = ((true, none), w.push (.queryExists true)) := by
    simp [initialized, hex, hrows]
  have havl : available m lib env (w.push (.queryExists true))
      = (.ok avail, (w.push (.queryExists true)).push (.readDir m.path true)) := by
    simp [available, ReadDir, hdir, havail]
  have happ : applied env ((w.push (.queryExists true)).push (.readDir m.path true))
      = (.ok (history ++ sortStrings (filterExcept lib avail history)),
          logCloser env (((w.push (.queryExists true)).push (.readDir m.path true)).push
            (.queryApplied true))) := by
    simp [applied, hq, hrows, hnames]
  have hp := ApplyPending_empty m lib env _ _ _ avail _ havl happ
    (filterExcept_after_apply lib avail history)
  have hA : Apply m lib env w = (.ret ([], none),
      logCloser env (((w.push (.queryExists true)).push (.readDir m.path true)).push
        (.queryApplied true))) := by
    simp [Apply, hinit, hp]
  rw [hA]
  refine ⟨rfl, ?_, ?_⟩
  · simp [logCloser_db]
  · obtain ⟨tl, htl, hw⟩ := logCloser_trace env (((w.push (.queryExists true)).push
      (.readDir m.path true)).push (.queryApplied true))
    refine ⟨[.queryExists true, .readDir m.path true, .queryApplied true] ++ tl, ?_, ?_⟩
    · simp [htl]
    · intro e he
      simp only [List.mem_append, List.mem_cons, List.mem_singleton, List.not_mem_nil,
        or_false] at he
      rcases he with (rfl | rfl | rfl) | he
      · rfl
      · rfl
      · rfl
      · exact hw e he

/-- C9 at a concrete input: a second `Apply` right after a first one on a fresh
database finds nothing to do. -/
theorem second_apply_is_empty_witness :
    (Apply demoMigration demoLib demoEnv (Apply demoMigration demoLib demoEnv freshWorld).2).1
      = .ret ([], none) :=
  ((second_apply_is_empty demoMigration demoLib demoEnv [lit "B.sql", lit "A.sql"] []).2
    (Apply demoMigration demoLib demoEnv freshWorld).2
    [⟨lit "A.sql", 7⟩, ⟨lit "B.sql", 7⟩]
    [⟨lit "B.sql", false⟩, ⟨lit "A.sql", false⟩, ⟨lit "sub.sql", true⟩, ⟨lit "x.txt", false⟩]
    (by decide) (by decide) rfl rfl (by decide) rfl).1

/-! ## The function `transaction` -/

theorem BeginTx_ok {S : Type} (env : Env S) (w : World S) (h : env.beginFault w.now = none) :
    BeginTx env w = (none, { w with tx := some w.db, trace := w.trace ++ [.beginTx true] }) := by
  simp [BeginTx, h]

theorem BeginTx_fail {S : Type} (env : Env S) (w : World S) (e : GoError)
    (h : env.beginFault w.now = some e) :
    BeginTx env w = (some e, w.push (.beginTx false)) := by
  simp [BeginTx, h]

theorem Rollback_trace {S : Type} (env : Env S) (w : World S) :
    (Rollback env w).2.trace = w.trace ++ [.rollback (Rollback env w).1.isNone] ∧
    (Rollback env w).2.db = w.db ∧ (Rollback env w).2.tx = none ∧
    (Rollback env w).1 = env.rollbackFault w.now := by
  unfold Rollback
  cases env.rollbackFault w.now <;> simp

theorem Commit_trace {S : Type} (env : Env S) (w : World S) :
    (Commit env w).2.trace = w.trace ++ [.commit (Commit env w).1.isNone] ∧
    (Commit env w).2.tx = none ∧ (Commit env w).1 = env.commitFault w.now := by
  unfold Commit
  cases env.commitFault w.now <;> simp

/-- The world in which the deferred function of `transaction` leaves after a
failed or panicking unit of work that ended in world `w`. -/
theorem rollback_branch {S : Type} (env : Env S) (w : World S) :
    ∃ tl b, (match (Rollback env w).1 with
        | some e => logger (.err e) (Rollback env w).2
        | none => (Rollback env w).2).trace = w.trace ++ Event.rollback b :: tl ∧
      (∀ e ∈ tl, e.isEnd = false) ∧
      (match (Rollback env w).1 with
        | some e => logger (.err e) (Rollback env w).2
        | none => (Rollback env w).2).db = w.db ∧
      (match (Rollback env w).1 with
        | some e => logger (.err e) (Rollback env w).2
        | none => (Rollback env w).2).tx = none ∧
      (∀ e, env.rollbackFault w.now = some e → b = false ∧ tl = [.log (.err e)]) ∧
      (env.rollbackFault w.now = none → b = true ∧ tl = []) := by
  obtain ⟨h1, h2, h3, h4⟩ := Rollback_trace env w
  cases hr : env.rollbackFault w.now with
  | none =>
    rw [hr] at h4
    refine ⟨[], true, ?_⟩
    simp [h4] at h1 ⊢
    exact ⟨h1, h2, h3⟩
  | some e =>
    rw [hr] at h4
    refine ⟨[.log (.err e)], false, ?_⟩
    simp [h4, logger] at h1 ⊢
    exact ⟨by simp [h1], by simp [Event.isEnd], h2, h3⟩

/-- C5: when `BeginTx` fails the unit of work is not run and a `DriverError`
wrapping the begin error is returned; when it succeeds, after the unit of work
exactly one call of `Commit` or `Rollback` follows: `Commit` exactly when the
work returned nil, `Rollback` when it returned an error (which is returned
unchanged) or panicked (the same value is re-raised, after the rollback). -/
theorem transaction_ends_exactly_once {S : Type} (env : Env S)
    (txFunc : World S → Res (Option GoError) × World S) (w : World S) :
    (∀ e, env.beginFault w.now = some e →
      transaction env txFunc w
        = (.ret (some (.driver (lit "failed to begin db transaction") e)),
            w.push (.beginTx false))) ∧
    (env.beginFault w.now = none →
      ∃ tl, (transaction env txFunc w).2.trace = (txFunc (BeginTx env w).2).2.trace ++ tl ∧
        (tl.filter Event.isEnd).length = 1 ∧
        ((∃ b, Event.commit b ∈ tl) ↔ (txFunc (BeginTx env w).2).1 = .ret none) ∧
        ((∃ b, Event.rollback b ∈ tl) ↔ (txFunc (BeginTx env w).2).1 ≠ .ret none) ∧
        (∀ err, (txFunc (BeginTx env w).2).1 = .ret (some err) →
          (transaction env txFunc w).1 = .ret (some err)) ∧
        (∀ p, (txFunc (BeginTx env w).2).1 = .panic p →
          (transaction env txFunc w).1 = .panic p)) := by
  constructor
  · intro e he
    simp [transaction, BeginTx_fail env w e he]
  · intro hb
    rw [BeginTx_ok env w hb]
    simp only [transaction, BeginTx_ok env w hb]
    rcases hf : txFunc { w with tx := some w.db, trace := w.trace ++ [.beginTx true] }
      with ⟨o, w2⟩
    cases o with
    | panic p =>
      obtain ⟨tl, b, h1, h2, -, -, -, -⟩ := rollback_branch env w2
      refine ⟨Event.rollback b :: tl, h1, ?_, ?_, ?_, ?_, ?_⟩
      · rw [List.filter_cons_of_pos (by rfl), List.filter_eq_nil_iff.mpr (by simpa using h2)]
        rfl
      · constructor
        · rintro ⟨b', hb'⟩
          simp only [List.mem_cons, reduceCtorEq, false_or] at hb'
          have := h2 _ hb'
          simp [Event.isEnd] at this
        · intro h; cases h
      · exact ⟨fun _ => by simp, fun _ => ⟨b, by simp⟩⟩
      · intro err h; cases h
      · intro p' h; cases h; rfl
    | ret err =>
      cases err with
      | some err =>
        obtain ⟨tl, b, h1, h2, -, -, -, -⟩ := rollback_branch env w2
        refine ⟨Event.rollback b :: tl, h1, ?_, ?_, ?_, ?_, ?_⟩
        · rw [List.filter_cons_of_pos (by rfl), List.filter_eq_nil_iff.mpr (by simpa using h2)]
          rfl
        · constructor
          · rintro ⟨b', hb'⟩
            simp only [List.mem_cons, reduceCtorEq, false_or] at hb'
            have := h2 _ hb'
            simp [Event.isEnd] at this
          · intro h; cases h
        · exact ⟨fun _ => by simp, fun _ => ⟨b, by simp⟩⟩
        · intro err' h; cases h; rfl
        · intro p' h; cases h
      | none =>
        obtain ⟨h1, -, -⟩ := Commit_trace env w2
        refine ⟨[.commit (Commit env w2).1.isNone], h1, rfl, ?_, ?_, ?_, ?_⟩
        · exact ⟨fun _ => rfl, fun _ => ⟨(Commit env w2).1.isNone, by simp⟩⟩
        · constructor
          · rintro ⟨b', hb'⟩
            simp at hb'
          · intro h; exact absurd rfl h
        · intro err' h; cases h
        · intro p' h; cases h

/-- C6, as stated, fails: the unit of work returns nil, `tx.Commit()` returns
the error `boom` (the trace records the failed commit), and the logger is
never called. -/
theorem commit_error_is_not_logged :
    (Commit commitFailEnv (workOk (BeginTx commitFailEnv emptyWorld).2).2).1 = some boom ∧
    transaction commitFailEnv workOk emptyWorld
      = (.ret none, ⟨⟨0, some []⟩, none, [.beginTx true, .commit false]⟩) := by
  decide

/-- C6, amended: when the unit of work returns an error or panics, that error
is what `transaction` returns and that panic value is what it re-raises,
whatever `tx.Rollback()` reports; an error reported by `tx.Rollback()` is
passed to the logger right after the rollback. -/
theorem rollback_error_is_logged_not_returned {S : Type} (env : Env S)
    (txFunc : World S → Res (Option GoError) × World S) (w : World S)
    (hb : env.beginFault w.now = none)
    (hw : (txFunc (BeginTx env w).2).1 ≠ .ret none) :
    (transaction env txFunc w).1 = (match (txFunc (BeginTx env w).2).1 with
      | .ret _ => (txFunc (BeginTx env w).2).1
      | .panic p => .panic p) ∧
    (∀ e, env.rollbackFault (txFunc (BeginTx env w).2).2.now = some e →
      (transaction env txFunc w).2.trace
        = (txFunc (BeginTx env w).2).2.trace ++ [.rollback false, .log (.err e)]) ∧
    (env.rollbackFault (txFunc (BeginTx env w).2).2.now = none →
      (transaction env txFunc w).2.trace
        = (txFunc (BeginTx env w).2).2.trace ++ [.rollback true]) := by
  rw [BeginTx_ok env w hb] at hw ⊢
  simp only [transaction, BeginTx_ok env w hb]
  rcases hf : txFunc { w with tx := some w.db, trace := w.trace ++ [.beginTx true] }
    with ⟨o, w2⟩
  rw [hf] at hw
  obtain ⟨tl, b, h1, -, -, -, h5, h6⟩ := rollback_branch env w2
  cases o with
  | panic p =>
    refine ⟨rfl, ?_, ?_⟩
    · intro e he
      obtain ⟨rfl, rfl⟩ := h5 e he
      exact h1
    · intro he
      obtain ⟨rfl, rfl⟩ := h6 he
      exact h1
  | ret err =>
    cases err with
    | none => exact absurd rfl hw
    | some err =>
      refine ⟨rfl, ?_, ?_⟩
      · intro e he
        obtain ⟨rfl, rfl⟩ := h5 e he
        exact h1
      · intro he
        obtain ⟨rfl, rfl⟩ := h6 he
        exact h1

/-- C6, amended, at a concrete input: the work fails, the rollback fails with
`boom`; the work's error is returned and `boom` is logged. -/
theorem rollback_error_is_logged_not_returned_witness :
    (transaction rollbackFailEnv workErr emptyWorld).1
      = .ret (some (.plain (lit "wrong syntax"))) ∧
    (transaction rollbackFailEnv workErr emptyWorld).2.trace
      = [.beginTx true, .rollback false, .log (.err boom)] :=
  ⟨(rollback_error_is_logged_not_returned rollbackFailEnv workErr emptyWorld
      (by decide) (by decide)).1,
    (rollback_error_is_logged_not_returned rollbackFailEnv workErr emptyWorld
      (by decide) (by decide)).2.1 boom (by decide)⟩

/-! ## The loop of `apply` -/

theorem fileOps_append (a b : List Event) : fileOps (a ++ b) = fileOps a ++ fileOps b := by
  simp [fileOps]

theorem reads_append (a b : List Event) : reads (a ++ b) = reads a ++ reads b := by
  induction a with
  | nil => rfl
  | cons e tr ih => cases e <;> simp [reads, ih]

theorem applyOne_spec {S : Type} (m : Migration) (lib : Lib) (env : Env S) (x : Str)
    (w : World S) :
    ∃ tl res, (applyOne m lib env x w).1 = .ret res ∧
      (applyOne m lib env x w).2.trace = w.trace ++ tl ∧
      reads tl = [lib.joinPath m.path x] ∧ StopsAtFailure tl res.isSome := by
  unfold applyOne
  simp only [ReadFile]
  cases hr : env.readFile w.now (lib.joinPath m.path x) with
  | error e =>
    dsimp only
    refine ⟨[.readFile _ false], _, rfl, rfl, rfl, ?_⟩
    exact ⟨[], .readFile _ false, rfl, rfl, by simp⟩
  | ok buf =>
    dsimp only
    by_cases htx : txSupported buf = true
    · rw [if_pos htx]
      unfold transaction
      simp only [BeginTx, now_push]
      cases hb : env.beginFault (w.now + 1) with
      | some e =>
        dsimp only
        refine ⟨[.readFile _ true, .beginTx false], _, rfl, by simp [World.push], rfl, ?_⟩
        exact ⟨[.readFile _ true], .beginTx false, rfl, rfl, by simp [Event.ok]⟩
      | none =>
        dsimp only
        simp only [txBody, txExecScript, World.push, World.now, List.length_append,
          List.length_singleton]
        rcases hs : env.runScript (w.trace.length + 1 + 1) buf w.db with ⟨r, d⟩
        cases r with
        | some e =>
          dsimp only
          simp only [Rollback, logger, World.push, World.now, List.length_append,
            List.length_singleton, Option.isNone_some]
          cases hrb : env.rollbackFault (w.trace.length + 1 + 1 + 1) with
          | some e2 =>
            dsimp only
            refine ⟨[.readFile _ true, .beginTx true, .txExec buf false, .rollback false,
              .log (.err e2)], _, rfl, by simp, rfl, ?_⟩
            exact ⟨[.readFile _ true, .beginTx true], .txExec buf false, rfl, rfl,
              by simp [Event.ok]⟩
          | none =>
            dsimp only
            refine ⟨[.readFile _ true, .beginTx true, .txExec buf false, .rollback true],
              _, rfl, by simp, rfl, ?_⟩
            exact ⟨[.readFile _ true, .beginTx true], .txExec buf false, rfl, rfl,
              by simp [Event.ok]⟩
        | none =>
          dsimp only
          simp only [txExecInsert, World.now, List.length_append, List.length_singleton,
            Option.isNone_none]
          rcases hi : insertRow (env.insertFault (w.trace.length + 1 + 1 + 1)) x
            (env.since (w.trace.length + 1 + 1 + 1)) d with ⟨r2, d2⟩
          cases r2 with
          | some e =>
            dsimp only
            simp only [Rollback, logger, World.push, World.now, List.length_append,
              List.length_singleton, Option.isNone_some]
            cases hrb : env.rollbackFault (w.trace.length + 1 + 1 + 1 + 1) with
            | some e2 =>
              dsimp only
              refine ⟨[.readFile _ true, .beginTx true, .txExec buf true, .txInsert x false,
                .rollback false, .log (.err e2)], _, rfl, by simp, rfl, ?_⟩
              exact ⟨[.readFile _ true, .beginTx true, .txExec buf true],
                .txInsert x false, rfl, rfl, by simp [Event.ok]⟩
            | none =>
              dsimp only
              refine ⟨[.readFile _ true, .beginTx true, .txExec buf true, .txInsert x false,
                .rollback true], _, rfl, by simp, rfl, ?_⟩
              exact ⟨[.readFile _ true, .beginTx true, .txExec buf true],
                .txInsert x false, rfl, rfl, by simp [Event.ok]⟩
          | none =>
            dsimp only
            simp only [Commit, World.now, List.length_append, List.length_singleton,
              Option.isNone_none]
            cases hc : env.commitFault (w.trace.length + 1 + 1 + 1 + 1) with
            | some e2 =>
              dsimp only
              refine ⟨[.readFile _ true, .beginTx true, .txExec buf true, .txInsert x true,
                .commit false], _, rfl, by simp, rfl, ?_⟩
              intro e he
              simp [fileOps, Event.isFileOp] at he
              rcases he with rfl | rfl | rfl | rfl <;> rfl
            | none =>
              dsimp only
              refine ⟨[.readFile _ true, .beginTx true, .txExec buf true, .txInsert x true,
                .commit true], _, rfl, by simp, rfl, ?_⟩
              intro e he
              simp [fileOps, Event.isFileOp] at he
              rcases he with rfl | rfl | rfl | rfl <;> rfl
    · rw [if_neg htx]
      simp only [dbExecScript, World.push, World.now, List.length_append, List.length_singleton]
      rcases hs : env.runScript (w.trace.length + 1) buf w.db with ⟨r, d⟩
      cases r with
      | some e =>
        dsimp only
        refine ⟨[.readFile _ true, .dbExec buf false], _, rfl, by simp, rfl, ?_⟩
        exact ⟨[.readFile _ true], .dbExec buf false, rfl, rfl, by simp [Event.ok]⟩
      | none =>
        dsimp only
        simp only [dbExecInsert, World.now, List.length_append, List.length_singleton,
          Option.isNone_none]
        rcases hi : insertRow (env.insertFault (w.trace.length + 1 + 1)) x
          (env.since (w.trace.length + 1 + 1)) d with ⟨r2, d2⟩
        cases r2 with
        | some e =>
          dsimp only
          refine ⟨[.readFile _ true, .dbExec buf true, .dbInsert x false], _, rfl, by simp,
            rfl, ?_⟩
          exact ⟨[.readFile _ true, .dbExec buf true], .dbInsert x false, rfl, rfl,
            by simp [Event.ok]⟩
        | none =>
          dsimp only
          refine ⟨[.readFile _ true, .dbExec buf true, .dbInsert x true], _, rfl, by simp,
            rfl, ?_⟩
          intro e he
          simp [fileOps, Event.isFileOp] at he
          rcases he with rfl | rfl | rfl <;> rfl

theorem applyLoop_cons_ok {S : Type} (m : Migration) (lib : Lib) (env : Env S) (x : Str)
    (rest acc : List Str) (w : World S) (h : (applyOne m lib env x w).1 = .ret none) :
    applyLoop m lib env (x :: rest) acc w
      = applyLoop m lib env rest (acc ++ [x]) (applyOne m lib env x w).2 := by
  simp only [applyLoop]
  rcases ho : applyOne m lib env x w with ⟨o, w1⟩
  rw [ho] at h
  simp only at h
  subst h
  rfl

theorem applyLoop_cons_err {S : Type} (m : Migration) (lib : Lib) (env : Env S) (x : Str)
    (rest acc : List Str) (w : World S) (err : GoError)
    (h : (applyOne m lib env x w).1 = .ret (some err)) :
    applyLoop m lib env (x :: rest) acc w
      = (.ret (acc, some err), (applyOne m lib env x w).2) := by
  simp only [applyLoop]
  rcases ho : applyOne m lib env x w with ⟨o, w1⟩
  rw [ho] at h
  simp only at h
  subst h
  rfl

theorem applyLoop_spec {S : Type} (m : Migration) (lib : Lib) (env : Env S)
    (pending acc : List Str) (w : World S) :
    ∃ tl, (applyLoop m lib env pending acc w).2.trace = w.trace ++ tl ∧
      ((∃ err k, (applyLoop m lib env pending acc w).1 = .ret (acc ++ pending.take k, some err) ∧
          k < pending.length ∧
          reads tl = (pending.take (k + 1)).map (lib.joinPath m.path) ∧
          StopsAtFailure tl true ∧
          applyLoop m lib env (pending.take (k + 1)) acc w = applyLoop m lib env pending acc w) ∨
        ((applyLoop m lib env pending acc w).1 = .ret (acc ++ pending, none) ∧
          reads tl = pending.map (lib.joinPath m.path) ∧ StopsAtFailure tl false)) := by
  induction pending generalizing acc w with
  | nil =>
    refine ⟨[], by simp [applyLoop], Or.inr ⟨by simp [applyLoop], rfl, ?_⟩⟩
    intro e he
    simp [fileOps] at he
  | cons x rest ih =>
    obtain ⟨tl1, res, h1, h2, h3, h4⟩ := applyOne_spec m lib env x w
    cases res with
    | some err =>
      rw [applyLoop_cons_err m lib env x rest acc w err h1]
      refine ⟨tl1, h2, Or.inl ⟨err, 0, by simp, by simp, by simpa using h3, h4, ?_⟩⟩
      simp only [zero_add, List.take_succ_cons, List.take_zero]
      rw [applyLoop_cons_err m lib env x [] acc w err h1]
    | none =>
      rw [applyLoop_cons_ok m lib env x rest acc w h1]
      obtain ⟨tl2, g1, g2⟩ := ih (acc ++ [x]) (applyOne m lib env x w).2
      have h4' : ∀ e ∈ fileOps tl1, e.ok = true := by simpa [StopsAtFailure] using h4
      refine ⟨tl1 ++ tl2, by rw [g1, h2, List.append_assoc], ?_⟩
      rcases g2 with ⟨err, k, k1, k2, k3, k4, k5⟩ | ⟨k1, k3, k4⟩
      · refine Or.inl ⟨err, k + 1, by simpa using k1, by simpa using k2, ?_, ?_, ?_⟩
        · rw [reads_append, h3, k3]
          simp
        · obtain ⟨ops, op, o1, o2, o3⟩ : ∃ ops op, fileOps tl2 = ops ++ [op] ∧ op.ok = false ∧
              ∀ e ∈ ops, e.ok = true := by simpa [StopsAtFailure] using k4
          refine ⟨fileOps tl1 ++ ops, op, by rw [fileOps_append, o1, List.append_assoc], o2, ?_⟩
          intro e he
          rcases List.mem_append.mp he with he | he
          · exact h4' e he
          · exact o3 e he
        · rw [List.take_succ_cons, applyLoop_cons_ok m lib env x _ acc w h1, k5]
      · refine Or.inr ⟨by simpa using k1, ?_, ?_⟩
        · rw [reads_append, h3, k3]
          simp
        · have k4' : ∀ e ∈ fileOps tl2, e.ok = true := by simpa [StopsAtFailure] using k4
          intro e he
          rw [fileOps_append] at he
          rcases List.mem_append.mp he with he | he
          · exact h4' e he
          · exact k4' e he

/-- C3: `apply` goes through the pending files in list order and stops at the
first operation that fails, a read, the opening of the transaction, the
execution of the script or the history insert.  The files read are exactly the
first `k + 1` pending ones, the failed operation is the last per-file operation
performed and all before it succeeded, the run is the same as the run on the
first `k + 1` files alone, and the result is a non-nil error with the `k` files
before the failing one.  When no such operation fails every file is read in
order and the result is the whole pending list with a nil error. -/
theorem apply_stops_at_first_failure {S : Type} (m : Migration) (lib : Lib) (env : Env S)
    (pending : List Str) (w : World S) :
    ∃ tl, (apply m lib env pending w).2.trace = w.trace ++ tl ∧
      ((∃ err k, (apply m lib env pending w).1 = .ret (pending.take k, some err) ∧
          k < pending.length ∧
          reads tl = (pending.take (k + 1)).map (lib.joinPath m.path) ∧
          (∃ ops op, fileOps tl = ops ++ [op] ∧ op.ok = false ∧ ∀ e ∈ ops, e.ok = true) ∧
          apply m lib env (pending.take (k + 1)) w = apply m lib env pending w) ∨
        ((apply m lib env pending w).1 = .ret (pending, none) ∧
          reads tl = pending.map (lib.joinPath m.path) ∧
          ∀ e ∈ fileOps tl, e.ok = true)) := by
  obtain ⟨tl, h1, h2⟩ := applyLoop_spec m lib env pending [] w
  refine ⟨tl, h1, ?_⟩
  rcases h2 with ⟨err, k, k1, k2, k3, k4, k5⟩ | ⟨k1, k3, k4⟩
  · exact Or.inl ⟨err, k, by simpa using k1, k2, k3, by simpa [StopsAtFailure] using k4, k5⟩
  · exact Or.inr ⟨by simpa using k1, k3, by simpa [StopsAtFailure] using k4⟩

/-! ## Atomicity of the transactional path -/

theorem applyLoop_append {S : Type} (m : Migration) (lib : Lib) (env : Env S)
    (pre rest acc acc' : List Str) (w wk : World S)
    (h : applyLoop m lib env pre acc w = (.ret (acc', none), wk)) :
    applyLoop m lib env (pre ++ rest) acc w = applyLoop m lib env rest acc' wk := by
  induction pre generalizing acc w with
  | nil =>
    simp only [applyLoop, Prod.mk.injEq, Res.ret.injEq, and_true] at h
    obtain ⟨rfl, rfl⟩ := h
    rfl
  | cons x pre ih =>
    obtain ⟨tl1, res, h1, -, -, -⟩ := applyOne_spec m lib env x w
    cases res with
    | some err =>
      rw [applyLoop_cons_err m lib env x pre acc w err h1] at h
      simp at h
    | none =>
      rw [applyLoop_cons_ok m lib env x pre acc w h1] at h
      rw [List.cons_append, applyLoop_cons_ok m lib env x _ acc w h1]
      exact ih _ _ h

theorem applyOne_tx_failure {S : Type} (m : Migration) (lib : Lib) (env : Env S)
    (name buf : Str) (wk : World S)
    (hread : env.readFile wk.now (lib.joinPath m.path name) = .ok buf)
    (htx : txSupported buf = true)
    (hbegin : env.beginFault (wk.now + 1) = none)
    (hfail : (env.runScript (wk.now + 2) buf wk.db).1 ≠ none ∨
      (insertRow (env.insertFault (wk.now + 3)) name (env.since (wk.now + 3))
        (env.runScript (wk.now + 2) buf wk.db).2).1 ≠ none) :
    ∃ err tl, applyOne m lib env name wk = (.ret (some err), ⟨wk.db, none, wk.trace ++ tl⟩) ∧
      (∃ b, Event.rollback b ∈ tl) ∧ ∀ b, Event.commit b ∉ tl := by
  unfold applyOne
  simp only [ReadFile, hread, htx, if_true, transaction, BeginTx, now_push, hbegin]
  simp only [txBody, txExecScript, World.push, World.now, List.length_append,
    List.length_singleton]
  simp only [World.now] at hfail
  rcases hs : env.runScript (wk.trace.length + 1 + 1) buf wk.db with ⟨r, d⟩
  rw [show wk.trace.length + 2 = wk.trace.length + 1 + 1 from rfl, hs] at hfail
  cases r with
  | some e =>
    dsimp only
    simp only [Rollback, logger, World.push, World.now, List.length_append,
      List.length_singleton, Option.isNone_some]
    cases hrb : env.rollbackFault (wk.trace.length + 1 + 1 + 1) with
    | some e2 =>
      dsimp only
      exact ⟨.driver (lit "failed to execute SQL script " ++ lib.joinPath m.path name) e,
        [.readFile (lib.joinPath m.path name) true, .beginTx true, .txExec buf false, .rollback false,
        .log (.err e2)], by simp, ⟨false, by simp⟩, by simp⟩
    | none =>
      dsimp only
      exact ⟨.driver (lit "failed to execute SQL script " ++ lib.joinPath m.path name) e,
        [.readFile (lib.joinPath m.path name) true, .beginTx true, .txExec buf false, .rollback true],
        by simp, ⟨true, by simp⟩, by simp⟩
  | none =>
    dsimp only
    simp only [txExecInsert, World.now, List.length_append, List.length_singleton,
      Option.isNone_none]
    simp only [ne_eq, not_true_eq_false, false_or] at hfail
    rcases hi : insertRow (env.insertFault (wk.trace.length + 1 + 1 + 1)) name
      (env.since (wk.trace.length + 1 + 1 + 1)) d with ⟨r2, d2⟩
    rw [show wk.trace.length + 3 = wk.trace.length + 1 + 1 + 1 from rfl, hi] at hfail
    cases r2 with
    | none => exact absurd rfl hfail
    | some e =>
      dsimp only
      simp only [Rollback, logger, World.push, World.now, List.length_append,
        List.length_singleton, Option.isNone_some]
      cases hrb : env.rollbackFault (wk.trace.length + 1 + 1 + 1 + 1) with
      | some e2 =>
        dsimp only
        exact ⟨insertError m lib e,
          [.readFile (lib.joinPath m.path name) true, .beginTx true, .txExec buf true, .txInsert name false,
          .rollback false, .log (.err e2)], by simp, ⟨false, by simp⟩, by simp⟩
      | none =>
        dsimp only
        exact ⟨insertError m lib e,
          [.readFile (lib.joinPath m.path name) true, .beginTx true, .txExec buf true, .txInsert name false,
          .rollback true], by simp, ⟨true, by simp⟩, by simp⟩

/-- C4: let the files `pre` before `name` have run through, ending in world `wk`,
and let `name` be a file without the opt-out marker whose transaction opens.
If executing its content fails, or the history insert that follows fails, then
`Rollback` is called and `Commit` is not, `apply` returns an error with the
files `pre`, the committed database state (schema and history) is the one of
`wk`, no transaction stays open, and `name` is not in the returned list when
the pending names are distinct. -/
theorem tx_failure_is_rolled_back {S : Type} (m : Migration) (lib : Lib) (env : Env S)
    (pre post : List Str) (name buf : Str) (w wk : World S)
    (hpre : apply m lib env pre w = (.ret (pre, none), wk))
    (hread : env.readFile wk.now (lib.joinPath m.path name) = .ok buf)
    (htx : txSupported buf = true)
    (hbegin : env.beginFault (wk.now + 1) = none)
    (hfail : (env.runScript (wk.now + 2) buf wk.db).1 ≠ none ∨
      (insertRow (env.insertFault (wk.now + 3)) name (env.since (wk.now + 3))
        (env.runScript (wk.now + 2) buf wk.db).2).1 ≠ none) :
    ∃ err tl, (apply m lib env (pre ++ name :: post) w).1 = .ret (pre, some err) ∧
      (apply m lib env (pre ++ name :: post) w).2.db = wk.db ∧
      (apply m lib env (pre ++ name :: post) w).2.tx = none ∧
      (apply m lib env (pre ++ name :: post) w).2.trace = wk.trace ++ tl ∧
      (∃ b, Event.rollback b ∈ tl) ∧ (∀ b, Event.commit b ∉ tl) ∧
      ((pre ++ name :: post).Nodup → name ∉ pre) := by
  obtain ⟨err, tl, h1, h2, h3⟩ := applyOne_tx_failure m lib env name buf wk hread htx hbegin hfail
  have hone : (applyOne m lib env name wk).1 = .ret (some err) := by rw [h1]
  have happ : apply m lib env (pre ++ name :: post) w
      = (.ret (pre, some err), ⟨wk.db, none, wk.trace ++ tl⟩) := by
    unfold apply at hpre ⊢
    rw [applyLoop_append m lib env pre (name :: post) [] pre w wk hpre,
      applyLoop_cons_err m lib env name post pre wk err hone, h1]
  rw [happ]
  refine ⟨err, tl, rfl, rfl, rfl, rfl, h2, h3, ?_⟩
  intro hnd hmem
  have := (List.nodup_append.mp hnd).2.2
  exact this hmem (List.mem_cons_self _ _)

/-- C4 at a concrete input: the only pending file `A.sql` has a script that the
database rejects; nothing is committed. -/
theorem tx_failure_is_rolled_back_witness :
    ∃ err tl, (apply demoMigration demoLib rollbackFailEnv ([] ++ lit "A.sql" :: []) emptyWorld).1
        = .ret ([], some err) ∧
      (apply demoMigration demoLib rollbackFailEnv ([] ++ lit "A.sql" :: []) emptyWorld).2.db
        = emptyWorld.db ∧
      (apply demoMigration demoLib rollbackFailEnv ([] ++ lit "A.sql" :: []) emptyWorld).2.tx
        = none ∧
      (apply demoMigration demoLib rollbackFailEnv ([] ++ lit "A.sql" :: []) emptyWorld).2.trace
        = emptyWorld.trace ++ tl ∧
      (∃ b, Event.rollback b ∈ tl) ∧ (∀ b, Event.commit b ∉ tl) ∧
      (([] ++ lit "A.sql" :: []).Nodup → lit "A.sql" ∉ ([] : List Str)) :=
  tx_failure_is_rolled_back demoMigration demoLib rollbackFailEnv [] [] (lit "A.sql")
    (lit "CREATE TABLE " ++ (lit "db" ++ lit "/" ++ lit "A.sql")) emptyWorld emptyWorld
    rfl rfl (by decide) rfl (Or.inl (by decide))

/-! ## The opt-out marker -/

theorem acceptLo_ge (p0 : Nat) : 0x80 ≤ acceptLo p0 := by
  unfold acceptLo
  split
  · omega
  · split <;> omega

theorem DecodeRune_width (q : Str) (hq : q ≠ []) :
    1 ≤ (DecodeRune q).2 ∧ (DecodeRune q).2 ≤ q.length := by
  unfold DecodeRune
  split
  · exact absurd rfl hq
  · split
    · simp
    · split
      · split
        · split <;> simp
        · simp
      · split
        · split
          · split
            · split <;> simp
            · simp
          · simp
        · split
          · split
            · split
              · split
                · split <;> simp
                · simp
              · simp
            · simp
          · simp

theorem DecodeRune_high (q : Str) (h : 2 ≤ (DecodeRune q).2) :
    ∀ k, k < (DecodeRune q).2 → 0x80 ≤ q.getD k 0 := by
  unfold DecodeRune at h ⊢
  split at h
  · simp at h
  · rename_i p0 rest
    split at h
    · simp at h
    · split at h
      · rename_i h0 hp0
        split at h
        · rename_i b1 tl
          split at h
          · rename_i hb1
            have := acceptLo_ge p0
            simp only [h0, hp0, hb1, if_true, if_false, and_self]
            intro k hk
            have hk2 : k = 0 ∨ k = 1 := by omega
            rcases hk2 with rfl | rfl
            · simp; omega
            · simp; omega
          · simp at h
        · simp at h
      · rename_i h0 hp0
        split at h
        · rename_i hp1
          split at h
          · rename_i b1 b2 tl
            split at h
            · rename_i hb1
              split at h
              · rename_i hb2
                have := acceptLo_ge p0
                simp only [isCont, decide_eq_true_eq] at hb2
                simp only [h0, hp0, hp1, hb1, isCont, hb2, if_true, if_false, and_self,
                  decide_True]
                intro k hk
                have hk2 : k = 0 ∨ k = 1 ∨ k = 2 := by omega
                rcases hk2 with rfl | rfl | rfl
                · simp; omega
                · simp; omega
                · simp; omega
              · simp at h
            · simp at h
          · simp at h
        · rename_i hp1
          split at h
          · rename_i hp2
            split at h
            · rename_i b1 b2 b3 tl
              split at h
              · rename_i hb1
                split at h
                · rename_i hb2
                  split at h
                  · rename_i hb3
                    have := acceptLo_ge p0
                    simp only [isCont, decide_eq_true_eq] at hb2 hb3
                    simp only [h0, hp0, hp1, hp2, hb1, isCont, hb2, hb3, if_true, if_false,
                      and_self, decide_True]
                    intro k hk
                    have hk2 : k = 0 ∨ k = 1 ∨ k = 2 ∨ k = 3 := by omega
                    rcases hk2 with rfl | rfl | rfl | rfl
                    · simp; omega
                    · simp; omega
                    · simp; omega
                    · simp; omega
                  · simp at h
                · simp at h
              · simp at h
            · simp at h
          · simp at h

theorem backUp_le (p : Str) (lim s r : Nat) (h : backUp p lim s = some r) : r ≤ s := by
  induction s with
  | zero =>
    simp only [backUp] at h
    split at h
    · simp at h; omega
    · simp at h
  | succ s ih =>
    simp only [backUp] at h
    split at h
    · simp at h
    · split at h
      · simp at h; omega
      · have := ih h
        omega

theorem getD_drop (q : Str) (a k : Nat) : (q.drop a).getD k 0 = q.getD (a + k) 0 := by
  simp [List.getD_eq_getElem?_getD, List.getElem?_drop]

theorem getD_take (q : Str) (n k : Nat) (h : k < n) : (q.take n).getD k 0 = q.getD k 0 := by
  simp [List.getD_eq_getElem?_getD, List.getElem?_take, h]

theorem lastStart_lt (q : Str) (hq : 0 < q.length) : lastStart q < q.length := by
  unfold lastStart
  by_cases h1 : q.length - 1 = 0
  · rw [if_pos h1]; exact hq
  · rw [if_neg h1]
    cases hb : backUp q (q.length - 4) (q.length - 2) with
    | some s =>
      have := backUp_le q _ _ s hb
      show s < q.length
      omega
    | none =>
      show (if q.length - 4 = 0 then 0 else q.length - 4 - 1) < q.length
      by_cases h2 : q.length - 4 = 0
      · rw [if_pos h2]; exact hq
      · rw [if_neg h2]; omega

theorem DecodeLastRune_spec (q : Str) (hq : q ≠ [])
    (hlast : 0x80 ≤ q.getD (q.length - 1) 0) :
    1 ≤ (DecodeLastRune q).2 ∧ (DecodeLastRune q).2 ≤ q.length ∧
    ∀ k, q.length - (DecodeLastRune q).2 ≤ k → k < q.length → 0x80 ≤ q.getD k 0 := by
  have hlen : 0 < q.length := List.length_pos.mpr hq
  have hst := lastStart_lt q hlen
  unfold DecodeLastRune
  rw [if_neg (by omega), if_neg (by omega)]
  by_cases hne : lastStart q + (DecodeRune (q.drop (lastStart q))).2 ≠ q.length
  · rw [if_pos hne]
    refine ⟨le_refl _, hlen, ?_⟩
    intro k hk1 hk2
    have : k = q.length - 1 := by
      have : q.length - 1 ≤ k := hk1
      omega
    rw [this]
    exact hlast
  · rw [if_neg hne]
    have heq : lastStart q + (DecodeRune (q.drop (lastStart q))).2 = q.length := by
      simpa using hne
    have hne2 : q.drop (lastStart q) ≠ [] := by
      intro h
      have := congrArg List.length h
      simp at this
      omega
    obtain ⟨w1, w2⟩ := DecodeRune_width (q.drop (lastStart q)) hne2
    refine ⟨w1, by omega, ?_⟩
    intro k hk1 hk2
    by_cases hw : 2 ≤ (DecodeRune (q.drop (lastStart q))).2
    · have := DecodeRune_high (q.drop (lastStart q)) hw (k - lastStart q) (by omega)
      rw [getD_drop] at this
      rwa [show lastStart q + (k - lastStart q) = k by omega] at this
    · have : k = q.length - 1 := by omega
      rw [this]
      exact hlast

theorem lastIndexFunc_marker (t : Str) (a : Nat)
    (hlow : t.getD a 0 < 0x80) (hns : IsSpace (t.getD a 0) = false) :
    ∀ fuel i, a < i → i ≤ t.length → i ≤ fuel →
      ∃ j, lastIndexFunc t fuel i = some j ∧ a ≤ j ∧ j < i := by
  intro fuel
  induction fuel with
  | zero => intro i h1 _ h3; omega
  | succ fuel ih =>
    intro i h1 h2 h3
    simp only [lastIndexFunc, show 0 < i by omega, if_true]
    by_cases hc : t.getD (i - 1) 0 < 0x80
    · simp only [hc, if_true]
      by_cases hsp : IsSpace (t.getD (i - 1) 0) = false
      · simp only [hsp, if_true]
        exact ⟨i - 1, rfl, by omega, by omega⟩
      · simp only [hsp, if_false]
        have hia : i - 1 ≠ a := by
          intro h
          rw [h] at hsp
          exact hsp hns
        obtain ⟨j, e1, e2, e3⟩ := ih (i - 1) (by omega) (by omega) (by omega)
        exact ⟨j, e1, e2, by omega⟩
    · simp only [hc, if_false]
      have hq : t.take i ≠ [] := by
        intro h
        have := congrArg List.length h
        rw [List.length_take, List.length_nil] at this
        omega
      have hlen : (t.take i).length = i := by simp; omega
      have hlast : 0x80 ≤ (t.take i).getD ((t.take i).length - 1) 0 := by
        rw [hlen, getD_take t i (i - 1) (by omega)]
        omega
      obtain ⟨s1, s2, s3⟩ := DecodeLastRune_spec (t.take i) hq hlast
      rw [hlen] at s2 s3
      have hai : a < i - (DecodeLastRune (t.take i)).2 := by
        by_contra hcon
        have := s3 a (by omega) h1
        rw [getD_take t i a h1] at this
        omega
      by_cases hsp : IsSpace (DecodeLastRune (t.take i)).1 = false
      · simp only [hsp, if_true]
        exact ⟨_, rfl, by omega, by omega⟩
      · simp only [hsp, if_false]
        obtain ⟨j, e1, e2, e3⟩ := ih (i - (DecodeLastRune (t.take i)).2) hai (by omega) (by omega)
        exact ⟨j, e1, e2, by omega⟩

theorem TrimRightFunc_take (t : Str) : ∃ k, TrimRightFunc t = t.take k := by
  unfold TrimRightFunc
  split
  · split
    · exact ⟨_, rfl⟩
    · exact ⟨_, rfl⟩
  · exact ⟨0, rfl⟩

theorem TrimRightFunc_keeps (t : Str) (a : Nat) (ha : a < t.length)
    (hlow : t.getD a 0 < 0x80) (hns : IsSpace (t.getD a 0) = false) :
    ∃ k, a < k ∧ TrimRightFunc t = t.take k := by
  obtain ⟨j, h1, h2, h3⟩ :=
    lastIndexFunc_marker t a hlow hns t.length t.length ha (le_refl _) (le_refl _)
  unfold TrimRightFunc
  rw [h1]
  dsimp only
  split
  · have hne : t.drop j ≠ [] := by
      intro h
      have := congrArg List.length h
      simp at this
      omega
    obtain ⟨w1, -⟩ := DecodeRune_width (t.drop j) hne
    exact ⟨_, by omega, rfl⟩
  · exact ⟨_, by omega, rfl⟩

theorem noTransaction_length : noTransaction.length = 27 := by decide

theorem HasPrefixBytes_iff (s pre : Str) : HasPrefixBytes s pre = true ↔ pre <+: s := by
  unfold HasPrefixBytes
  rw [Bool.and_eq_true, decide_eq_true_eq, decide_eq_true_eq]
  constructor
  · rintro ⟨-, h⟩
    exact List.prefix_iff_eq_take.mpr h.symm
  · intro h
    exact ⟨h.length_le, (List.prefix_iff_eq_take.mp h).symm⟩

theorem hasPrefix_trimRight (t : Str) :
    noTransaction <+: TrimRightFunc t ↔ noTransaction <+: t := by
  constructor
  · intro h
    obtain ⟨k, hk⟩ := TrimRightFunc_take t
    rw [hk] at h
    exact h.trans (List.take_prefix k t)
  · intro h
    obtain ⟨r, hr⟩ := h
    have hlen : 26 < t.length := by
      rw [← hr, List.length_append, noTransaction_length]
      omega
    have h26 : t.getD 26 0 = 0x6E := by
      rw [← hr]
      rfl
    obtain ⟨k, hk1, hk2⟩ := TrimRightFunc_keeps t 26 hlen (by rw [h26]; decide)
      (by rw [h26]; decide)
    rw [hk2, ← hr, List.take_append_eq_append_take, noTransaction_length,
      List.take_of_length_le (by rw [noTransaction_length]; omega)]
    exact List.prefix_append _ _

theorem txSupported_false_iff (s : Str) :
    txSupported s = false ↔ noTransaction <+: TrimLeftFunc s := by
  unfold txSupported TrimSpace
  rw [← hasPrefix_trimRight, ← HasPrefixBytes_iff]
  cases HasPrefixBytes (TrimRightFunc (TrimLeftFunc s)) noTransaction <;> simp

theorem indexFunc_skips (ws rest : Str) (hws : ∀ c ∈ ws, c < 0x80 ∧ IsSpace c = true) :
    ∀ fuel start, start ≤ ws.length → ws.length - start < fuel →
      indexFunc (ws ++ noTransaction ++ rest) fuel start = some ws.length := by
  intro fuel
  induction fuel with
  | zero => intro start _ h; omega
  | succ fuel ih =>
    intro start h1 h2
    have hlen : start < (ws ++ noTransaction ++ rest).length := by
      simp only [List.length_append, noTransaction_length]
      omega
    simp only [indexFunc, hlen, if_true]
    by_cases hs : start < ws.length
    · have hget : (ws ++ noTransaction ++ rest).getD start 0 = ws[start] := by
        rw [List.getD_eq_getElem?_getD, List.append_assoc, List.getElem?_append_left hs,
          List.getElem?_eq_getElem hs]
        rfl
      obtain ⟨c1, c2⟩ := hws ws[start] (List.getElem_mem hs)
      rw [hget]
      simp only [c1, if_true, c2, Bool.true_eq_false, if_false]
      exact ih (start + 1) (by omega) (by omega)
    · have hst : start = ws.length := by omega
      subst hst
      have hget : (ws ++ noTransaction ++ rest).getD ws.length 0 = 0x2D := by
        rw [List.getD_eq_getElem?_getD, List.append_assoc,
          List.getElem?_append_right (le_refl _)]
        simp [noTransaction, lit]
      rw [hget]
      rfl

theorem TrimLeftFunc_skips (ws rest : Str) (hws : ∀ c ∈ ws, c < 0x80 ∧ IsSpace c = true) :
    TrimLeftFunc (ws ++ noTransaction ++ rest) = noTransaction ++ rest := by
  unfold TrimLeftFunc
  rw [indexFunc_skips ws rest hws _ 0 (Nat.zero_le _)
    (by simp only [List.length_append, noTransaction_length]; omega)]
  simp

/-- C7, as stated, fails: the first line of this content is blank, not the
marker, and the marker stands on the second line; the transaction is
suppressed all the same. -/
theorem marker_after_blank_line_suppresses :
    firstLine (lit "  \n  -- migrathor:no_transaction") = lit "  " ∧
    TrimSpace (lit "  ") ≠ noTransaction ∧
    txSupported (lit "  \n  -- migrathor:no_transaction") = false := by
  decide

/-- C7, amended: a content that does not begin with the marker once its
leading white space (blank lines included) is removed keeps the transaction,
whatever follows, the marker text on a later line included. -/
theorem marker_not_at_start_keeps_transaction (s : Str)
    (h : ¬ noTransaction <+: TrimLeftFunc s) : txSupported s = true := by
  cases hs : txSupported s with
  | true => rfl
  | false => exact absurd ((txSupported_false_iff s).mp hs) h

/-- C7, amended, at a concrete input: the marker on the second line after a
statement on the first. -/
theorem marker_not_at_start_keeps_transaction_witness :
    (¬ noTransaction <+: TrimLeftFunc
      (lit "RANDOM ACCESS MEMORY;\n  -- migrathor:no_transaction /* not on first line */")) ∧
    txSupported
      (lit "RANDOM ACCESS MEMORY;\n  -- migrathor:no_transaction /* not on first line */")
      = true :=
  ⟨by decide, marker_not_at_start_keeps_transaction _ (by decide)⟩

/-- C8, as stated, fails: the first line of this content, trimmed, is not equal
to the marker (a comment follows it), and the transaction is suppressed. -/
theorem marker_with_trailing_text_suppresses :
    firstLine (lit "  -- migrathor:no_transaction    /* comment */")
      = lit "  -- migrathor:no_transaction    /* comment */" ∧
    TrimSpace (lit "  -- migrathor:no_transaction    /* comment */") ≠ noTransaction ∧
    txSupported (lit "  -- migrathor:no_transaction    /* comment */") = false := by
  decide

/-- C8, amended: the transaction is suppressed exactly when the content, with
its leading white space removed, begins with the marker; what follows the
marker, on the same line or later, does not matter. -/
theorem suppressed_iff_marker_leads (s : Str) :
    (txSupported s = false ↔ noTransaction <+: TrimLeftFunc s) ∧
    (∀ ws rest : Str, (∀ c ∈ ws, c < 0x80 ∧ IsSpace c = true) →
      txSupported (ws ++ noTransaction ++ rest) = false) := by
  refine ⟨txSupported_false_iff s, ?_⟩
  intro ws rest hws
  rw [txSupported_false_iff, TrimLeftFunc_skips ws rest hws]
  exact List.prefix_append _ _

/-! ## The loops of `TrimSpace` never run out of fuel -/

theorem indexFunc_fuel (s : Str) :
    ∀ f1 f2 start, s.length - start ≤ f1 → s.length - start ≤ f2 →
      indexFunc s f1 start = indexFunc s f2 start := by
  intro f1
  induction f1 with
  | zero =>
    intro f2 start h1 _
    cases f2 with
    | zero => rfl
    | succ f2 => simp only [indexFunc, show ¬ start < s.length by omega, if_false]
  | succ f1 ih =>
    intro f2 start h1 h2
    cases f2 with
    | zero => simp only [indexFunc, show ¬ start < s.length by omega, if_false]
    | succ f2 =>
      simp only [indexFunc]
      by_cases hlt : start < s.length
      · simp only [hlt, if_true]
        have hw : 1 ≤ (if s.getD start 0 < 0x80 then (s.getD start 0, 1)
            else DecodeRune (s.drop start)).2 := by
          split
          · exact le_refl _
          · refine (DecodeRune_width (s.drop start) ?_).1
            intro h
            have := congrArg List.length h
            rw [List.length_drop, List.length_nil] at this
            omega
        generalize (if s.getD start 0 < 0x80 then (s.getD start 0, 1)
            else DecodeRune (s.drop start)) = d at hw ⊢
        by_cases hsp : IsSpace d.1 = false
        · simp only [hsp, if_true]
        · simp only [hsp, if_false]
          exact ih f2 _ (by omega) (by omega)
      · simp only [hlt, if_false]

theorem lastIndexFunc_fuel (s : Str) :
    ∀ f1 f2 i, i ≤ s.length → i ≤ f1 → i ≤ f2 →
      lastIndexFunc s f1 i = lastIndexFunc s f2 i := by
  intro f1
  induction f1 with
  | zero =>
    intro f2 i _ h1 _
    cases f2 with
    | zero => rfl
    | succ f2 => simp only [lastIndexFunc, show ¬ 0 < i by omega, if_false]
  | succ f1 ih =>
    intro f2 i hi h1 h2
    cases f2 with
    | zero => simp only [lastIndexFunc, show ¬ 0 < i by omega, if_false]
    | succ f2 =>
      simp only [lastIndexFunc]
      by_cases hlt : 0 < i
      · simp only [hlt, if_true]
        have hw : 1 ≤ (if s.getD (i - 1) 0 < 0x80 then (s.getD (i - 1) 0, 1)
            else DecodeLastRune (s.take i)).2 := by
          split
          · exact le_refl _
          · rename_i hc
            have hlen : (s.take i).length = i := by rw [List.length_take]; omega
            refine (DecodeLastRune_spec (s.take i) ?_ ?_).1
            · intro h
              have := congrArg List.length h
              rw [hlen, List.length_nil] at this
              omega
            · rw [hlen, getD_take s i (i - 1) (by omega)]
              omega
        generalize (if s.getD (i - 1) 0 < 0x80 then (s.getD (i - 1) 0, 1)
            else DecodeLastRune (s.take i)) = d at hw ⊢
        by_cases hsp : IsSpace d.1 = false
        · simp only [hsp, if_true]
        · simp only [hsp, if_false]
          exact ih f2 _ (by omega) (by omega) (by omega)
      · simp only [hlt, if_false]

/-! ## Completeness -/

theorem insertRow_ok {S : Type} (fault : Option GoError) (x : Str) (dur : Nat) (d d2 : DB S)
    (rows : List Row) (hd : d.history = some rows)
    (h : insertRow fault x dur d = (none, d2)) :
    d2.history = some (rows ++ [⟨x, dur⟩]) ∧ d2.schema = d.schema ∧
      x ∉ rows.map Row.migration := by
  unfold insertRow at h
  cases fault with
  | some e => simp at h
  | none =>
    simp only [hd] at h
    by_cases hm : x ∈ rows.map Row.migration
    · simp [hm] at h
    · simp only [hm, if_false, Prod.mk.injEq, true_and] at h
      subst h
      exact ⟨rfl, rfl, hm⟩

theorem applyOne_history {S : Type} (m : Migration) (lib : Lib) (env : Env S) (x : Str)
    (w : World S) (rows : List Row)
    (hscripts : ∀ t s d, (env.runScript t s d).2.history = d.history)
    (hcommit : ∀ t, env.commitFault t = none)
    (hrows : w.db.history = some rows)
    (hok : (applyOne m lib env x w).1 = .ret none) :
    ∃ dur, (applyOne m lib env x w).2.db.history = some (rows ++ [⟨x, dur⟩]) := by
  unfold applyOne at hok ⊢
  simp only [ReadFile] at hok ⊢
  cases hr : env.readFile w.now (lib.joinPath m.path x) with
  | error e => rw [hr] at hok; simp at hok
  | ok buf =>
    rw [hr] at hok
    dsimp only at hok ⊢
    by_cases htx : txSupported buf = true
    · rw [if_pos htx] at hok ⊢
      unfold transaction at hok ⊢
      simp only [BeginTx, now_push] at hok ⊢
      cases hb : env.beginFault (w.now + 1) with
      | some e => rw [hb] at hok; simp at hok
      | none =>
        rw [hb] at hok
        dsimp only at hok ⊢
        simp only [txBody, txExecScript, World.push, World.now, List.length_append,
          List.length_singleton] at hok ⊢
        have hsc := hscripts (w.trace.length + 1 + 1) buf w.db
        rcases hs : env.runScript (w.trace.length + 1 + 1) buf w.db with ⟨r, d⟩
        rw [hs] at hok hsc
        cases r with
        | some e => simp at hok
        | none =>
          dsimp only at hok ⊢
          simp only [txExecInsert, World.now, List.length_append, List.length_singleton,
            Option.isNone_none] at hok ⊢
          rcases hi : insertRow (env.insertFault (w.trace.length + 1 + 1 + 1)) x
            (env.since (w.trace.length + 1 + 1 + 1)) d with ⟨r2, d2⟩
          rw [hi] at hok
          cases r2 with
          | some e => simp at hok
          | none =>
            dsimp only at hok ⊢
            obtain ⟨g1, -, -⟩ := insertRow_ok _ x _ d d2 rows (hsc.trans hrows) hi
            simp only [Commit, hcommit]
            exact ⟨_, g1⟩
    · rw [if_neg htx] at hok ⊢
      simp only [dbExecScript, World.push, World.now, List.length_append,
        List.length_singleton] at hok ⊢
      have hsc := hscripts (w.trace.length + 1) buf w.db
      rcases hs : env.runScript (w.trace.length + 1) buf w.db with ⟨r, d⟩
      rw [hs] at hok hsc
      cases r with
      | some e => simp at hok
      | none =>
        dsimp only at hok ⊢
        simp only [dbExecInsert, World.now, List.length_append, List.length_singleton,
          Option.isNone_none] at hok ⊢
        rcases hi : insertRow (env.insertFault (w.trace.length + 1 + 1)) x
          (env.since (w.trace.length + 1 + 1)) d with ⟨r2, d2⟩
        rw [hi] at hok
        cases r2 with
        | some e => simp at hok
        | none =>
          dsimp only at hok ⊢
          obtain ⟨g1, -, -⟩ := insertRow_ok _ x _ d d2 rows (hsc.trans hrows) hi
          exact ⟨_, g1⟩

/-- What C10 asks for holds when every commit succeeds and no script touches
the history table: a run of `apply` that returns a nil error returns the whole
pending list and leaves the prior rows followed by one row for each pending
name, in the order of the list. -/
theorem history_after_committed_apply {S : Type} (m : Migration) (lib : Lib) (env : Env S)
    (hscripts : ∀ t s d, (env.runScript t s d).2.history = d.history)
    (hcommit : ∀ t, env.commitFault t = none)
    (pending : List Str) (w : World S) (rows : List Row) (done : List Str)
    (hrows : w.db.history = some rows)
    (hok : (apply m lib env pending w).1 = .ret (done, none)) :
    done = pending ∧ ∃ new, (apply m lib env pending w).2.db.history = some (rows ++ new) ∧
      new.map Row.migration = pending := by
  have key : ∀ (pending acc : List Str) (w : World S) (rows : List Row) (done : List Str),
      w.db.history = some rows →
      (applyLoop m lib env pending acc w).1 = .ret (done, none) →
      done = acc ++ pending ∧ ∃ new,
        (applyLoop m lib env pending acc w).2.db.history = some (rows ++ new) ∧
        new.map Row.migration = pending := by
    intro pending
    induction pending with
    | nil =>
      intro acc w rows done hrows hok
      simp only [applyLoop, Res.ret.injEq, Prod.mk.injEq, and_true] at hok
      exact ⟨by simp [hok], [], by simp [applyLoop, hrows], rfl⟩
    | cons x rest ih =>
      intro acc w rows done hrows hok
      obtain ⟨tl1, res, h1, -, -, -⟩ := applyOne_spec m lib env x w
      cases res with
      | some err =>
        rw [applyLoop_cons_err m lib env x rest acc w err h1] at hok
        simp at hok
      | none =>
        rw [applyLoop_cons_ok m lib env x rest acc w h1] at hok ⊢
        obtain ⟨dur, hd⟩ := applyOne_history m lib env x w rows hscripts hcommit hrows h1
        obtain ⟨g1, new, g2, g3⟩ := ih _ _ _ _ hd hok
        refine ⟨by simpa using g1, ⟨x, dur⟩ :: new, ?_, by simp [g3]⟩
        rw [g2]
        simp
  have := key pending [] w rows done hrows hok
  simpa [apply] using this

/-- C10, at a failing input: the history table is empty, the directory holds
`A.sql` and `B.sql`, and `tx.Commit()` fails for `A.sql`.  `Apply` returns both
names and a nil error, yet the history holds a row for `B.sql` only. -/
theorem apply_reports_uncommitted_migration :
    (Apply demoMigration demoLib firstCommitFailEnv emptyWorld).1
      = .ret ([lit "A.sql", lit "B.sql"], none) ∧
    (Apply demoMigration demoLib firstCommitFailEnv emptyWorld).2.db.history
      = some [⟨lit "B.sql", 7⟩] ∧
    Event.commit false ∈ (Apply demoMigration demoLib firstCommitFailEnv emptyWorld).2.trace := by
  decide

/-! ## The path without a transaction -/

theorem apply_at {S : Type} (m : Migration) (lib : Lib) (env : Env S)
    (pre post : List Str) (name : Str) (w wk : World S) (err : GoError)
    (hpre : apply m lib env pre w = (.ret (pre, none), wk))
    (h : (applyOne m lib env name wk).1 = .ret (some err)) :
    apply m lib env (pre ++ name :: post) w
      = (.ret (pre, some err), (applyOne m lib env name wk).2) := by
  unfold apply at hpre ⊢
  rw [applyLoop_append m lib env pre (name :: post) [] pre w wk hpre,
    applyLoop_cons_err m lib env name post pre wk err h]

theorem insertRow_fail {S : Type} (fault : Option GoError) (x : Str) (dur : Nat) (d : DB S)
    (e : GoError) (h : (insertRow fault x dur d).1 = some e) :
    (insertRow fault x dur d).2 = d := by
  unfold insertRow at h ⊢
  cases fault with
  | some e2 => rfl
  | none =>
    dsimp only at h ⊢
    cases hh : d.history with
    | none => rfl
    | some rows =>
      rw [hh] at h
      dsimp only at h ⊢
      by_cases hm : x ∈ rows.map Row.migration
      · rw [if_pos hm]
      · rw [if_neg hm] at h
        simp at h

theorem applyOne_notx_trace {S : Type} (m : Migration) (lib : Lib) (env : Env S)
    (name buf : Str) (wk : World S)
    (hread : env.readFile wk.now (lib.joinPath m.path name) = .ok buf)
    (hmark : txSupported buf = false) :
    ∃ tl, (applyOne m lib env name wk).2.trace = wk.trace ++ tl ∧
      (∀ ev ∈ tl, ev.isTx = false) ∧ (applyOne m lib env name wk).2.tx = wk.tx ∧
      Event.dbExec buf (env.runScript (wk.now + 1) buf wk.db).1.isNone ∈ tl := by
  unfold applyOne
  simp only [ReadFile, hread, hmark, Bool.false_eq_true, if_false]
  simp only [dbExecScript, World.push, World.now, List.length_append, List.length_singleton]
  rcases hs : env.runScript (wk.trace.length + 1) buf wk.db with ⟨r, d⟩
  cases r with
  | some e =>
    dsimp only
    exact ⟨[.readFile (lib.joinPath m.path name) true, .dbExec buf false], by simp,
      by simp [Event.isTx], rfl, by simp⟩
  | none =>
    dsimp only
    simp only [dbExecInsert, World.now, List.length_append, List.length_singleton,
      Option.isNone_none]
    rcases hi : insertRow (env.insertFault (wk.trace.length + 1 + 1)) name
      (env.since (wk.trace.length + 1 + 1)) d with ⟨r2, d2⟩
    cases r2 with
    | some e =>
      dsimp only
      exact ⟨[.readFile (lib.joinPath m.path name) true, .dbExec buf true,
        .dbInsert name false], by simp, by simp [Event.isTx], rfl, by simp⟩
    | none =>
      dsimp only
      exact ⟨[.readFile (lib.joinPath m.path name) true, .dbExec buf true,
        .dbInsert name true], by simp, by simp [Event.isTx], rfl, by simp⟩

theorem applyOne_notx_script_fails {S : Type} (m : Migration) (lib : Lib) (env : Env S)
    (name buf : Str) (wk : World S) (e : GoError)
    (hread : env.readFile wk.now (lib.joinPath m.path name) = .ok buf)
    (hmark : txSupported buf = false)
    (hexec : (env.runScript (wk.now + 1) buf wk.db).1 = some e) :
    applyOne m lib env name wk
      = (.ret (some (.driver (lit "failed to execute SQL script " ++ lib.joinPath m.path name) e)),
          ⟨(env.runScript (wk.now + 1) buf wk.db).2, wk.tx,
            wk.trace ++ [.readFile (lib.joinPath m.path name) true, .dbExec buf false]⟩) := by
  unfold applyOne
  simp only [ReadFile, hread, hmark, Bool.false_eq_true, if_false]
  simp only [dbExecScript, World.push, World.now, List.length_append, List.length_singleton]
  simp only [World.now] at hexec
  rcases hs : env.runScript (wk.trace.length + 1) buf wk.db with ⟨r, d⟩
  rw [hs] at hexec
  simp only at hexec
  subst hexec
  simp

theorem applyOne_notx_insert_fails {S : Type} (m : Migration) (lib : Lib) (env : Env S)
    (name buf : Str) (wk : World S) (e : GoError)
    (hread : env.readFile wk.now (lib.joinPath m.path name) = .ok buf)
    (hmark : txSupported buf = false)
    (hexec : (env.runScript (wk.now + 1) buf wk.db).1 = none)
    (hins : (insertRow (env.insertFault (wk.now + 2)) name (env.since (wk.now + 2))
      (env.runScript (wk.now + 1) buf wk.db).2).1 = some e) :
    applyOne m lib env name wk
      = (.ret (some (insertError m lib e)),
          ⟨(env.runScript (wk.now + 1) buf wk.db).2, wk.tx,
            wk.trace ++ [.readFile (lib.joinPath m.path name) true, .dbExec buf true,
              .dbInsert name false]⟩) := by
  have hsame := insertRow_fail _ _ _ _ e hins
  unfold applyOne
  simp only [ReadFile, hread, hmark, Bool.false_eq_true, if_false]
  simp only [dbExecScript, World.push, World.now, List.length_append, List.length_singleton]
  simp only [World.now] at hexec hins hsame
  rcases hs : env.runScript (wk.trace.length + 1) buf wk.db with ⟨r, d⟩
  rw [hs] at hexec hins hsame
  simp only at hexec hins hsame
  subst hexec
  dsimp only
  simp only [dbExecInsert, World.now, List.length_append, List.length_singleton,
    Option.isNone_none]
  rcases hi : insertRow (env.insertFault (wk.trace.length + 1 + 1)) name
    (env.since (wk.trace.length + 1 + 1)) d with ⟨r2, d2⟩
  rw [show wk.trace.length + 2 = wk.trace.length + 1 + 1 from rfl, hi] at hins hsame
  simp only at hins hsame
  subst hins hsame
  simp

/-- C11: a file that carries the opt-out marker is run with no operation on a
transaction: its script is executed on the connection.  If the script
succeeds and the history insert that follows fails with `e`, `apply` returns
the files before it and a `DriverError` whose `Err` is `e`; the committed
state is the one the script left (its effects stay, the insert added no row,
nothing is undone), and the name is not in the returned list when the
pending names are distinct. -/
theorem optout_insert_failure_keeps_content {S : Type} (m : Migration) (lib : Lib) (env : Env S)
    (pre post : List Str) (name buf : Str) (w wk : World S)
    (hpre : apply m lib env pre w = (.ret (pre, none), wk))
    (hread : env.readFile wk.now (lib.joinPath m.path name) = .ok buf)
    (hmark : txSupported buf = false) :
    (∃ tl, (applyOne m lib env name wk).2.trace = wk.trace ++ tl ∧
      (∀ ev ∈ tl, ev.isTx = false) ∧ (applyOne m lib env name wk).2.tx = wk.tx ∧
      Event.dbExec buf (env.runScript (wk.now + 1) buf wk.db).1.isNone ∈ tl) ∧
    (∀ e, (env.runScript (wk.now + 1) buf wk.db).1 = none →
      (insertRow (env.insertFault (wk.now + 2)) name (env.since (wk.now + 2))
        (env.runScript (wk.now + 1) buf wk.db).2).1 = some e →
      apply m lib env (pre ++ name :: post) w
        = (.ret (pre, some (insertError m lib e)),
            ⟨(env.runScript (wk.now + 1) buf wk.db).2, wk.tx,
              wk.trace ++ [.readFile (lib.joinPath m.path name) true, .dbExec buf true,
                .dbInsert name false]⟩) ∧
      (∃ info, insertError m lib e = .driver info e) ∧
      UnderlyingError (insertError m lib e) = e ∧
      ((pre ++ name :: post).Nodup → name ∉ pre)) := by
  refine ⟨applyOne_notx_trace m lib env name buf wk hread hmark, ?_⟩
  intro e hexec hins
  have h1 := applyOne_notx_insert_fails m lib env name buf wk e hread hmark hexec hins
  have h2 := apply_at m lib env pre post name w wk (insertError m lib e) hpre (by rw [h1])
  rw [h1] at h2
  refine ⟨h2, ⟨_, rfl⟩, rfl, ?_⟩
  intro hnd hmem
  exact (List.nodup_append.mp hnd).2.2 hmem (List.mem_cons_self _ _)

/-- C11 at a concrete input: the only pending file carries the marker, its
script counts the schema up to 1, the insert fails with `boom`. -/
theorem optout_insert_failure_keeps_content_witness :
    (apply demoMigration demoLib optOutEnv ([] ++ lit "A.sql" :: []) emptyWorld).2.db
      = ⟨1, some []⟩ ∧
    (apply demoMigration demoLib optOutEnv ([] ++ lit "A.sql" :: []) emptyWorld).1
      = .ret ([], some (insertError demoMigration demoLib boom)) :=
  ⟨congrArg (fun r => r.2.db)
      (((optout_insert_failure_keeps_content demoMigration demoLib optOutEnv [] []
        (lit "A.sql") (lit "-- migrathor:no_transaction\nVACUUM log;") emptyWorld emptyWorld
        rfl rfl (by decide)).2 boom rfl rfl).1),
    congrArg (fun r => r.1)
      (((optout_insert_failure_keeps_content demoMigration demoLib optOutEnv [] []
        (lit "A.sql") (lit "-- migrathor:no_transaction\nVACUUM log;") emptyWorld emptyWorld
        rfl rfl (by decide)).2 boom rfl rfl).1)⟩

/-! ## The errors of the execution phase -/

theorem applyOne_tx_script_fails {S : Type} (m : Migration) (lib : Lib) (env : Env S)
    (name buf : Str) (wk : World S) (e : GoError)
    (hread : env.readFile wk.now (lib.joinPath m.path name) = .ok buf)
    (htx : txSupported buf = true)
    (hbegin : env.beginFault (wk.now + 1) = none)
    (hexec : (env.runScript (wk.now + 2) buf wk.db).1 = some e) :
    (applyOne m lib env name wk).1
      = .ret (some (.driver (lit "failed to execute SQL script " ++ lib.joinPath m.path name) e)) := by
  unfold applyOne
  simp only [ReadFile, hread, htx, if_true, transaction, BeginTx, now_push, hbegin]
  simp only [txBody, txExecScript, World.push, World.now, List.length_append,
    List.length_singleton]
  simp only [World.now] at hexec
  rcases hs : env.runScript (wk.trace.length + 1 + 1) buf wk.db with ⟨r, d⟩
  rw [show wk.trace.length + 2 = wk.trace.length + 1 + 1 from rfl, hs] at hexec
  simp only at hexec
  subst hexec
  rfl

theorem applyOne_tx_insert_fails {S : Type} (m : Migration) (lib : Lib) (env : Env S)
    (name buf : Str) (wk : World S) (e : GoError)
    (hread : env.readFile wk.now (lib.joinPath m.path name) = .ok buf)
    (htx : txSupported buf = true)
    (hbegin : env.beginFault (wk.now + 1) = none)
    (hexec : (env.runScript (wk.now + 2) buf wk.db).1 = none)
    (hins : (insertRow (env.insertFault (wk.now + 3)) name (env.since (wk.now + 3))
      (env.runScript (wk.now + 2) buf wk.db).2).1 = some e) :
    (applyOne m lib env name wk).1 = .ret (some (insertError m lib e)) := by
  unfold applyOne
  simp only [ReadFile, hread, htx, if_true, transaction, BeginTx, now_push, hbegin]
  simp only [txBody, txExecScript, World.push, World.now, List.length_append,
    List.length_singleton]
  simp only [World.now] at hexec hins
  rcases hs : env.runScript (wk.trace.length + 1 + 1) buf wk.db with ⟨r, d⟩
  rw [show wk.trace.length + 2 = wk.trace.length + 1 + 1 from rfl, hs] at hexec hins
  simp only at hexec hins
  subst hexec
  dsimp only
  simp only [txExecInsert, World.now, List.length_append, List.length_singleton,
    Option.isNone_none]
  rcases hi : insertRow (env.insertFault (wk.trace.length + 1 + 1 + 1)) name
    (env.since (wk.trace.length + 1 + 1 + 1)) d with ⟨r2, d2⟩
  rw [show wk.trace.length + 3 = wk.trace.length + 1 + 1 + 1 from rfl, hi] at hins
  simp only at hins
  subst hins
  rfl

theorem Contains_iff (s sub : Str) : Contains s sub = true ↔ sub <:+: s := by
  induction s with
  | nil =>
    simp only [Contains, HasPrefixBytes_iff]
    exact ⟨fun h => h.isInfix, fun h => by rw [List.infix_nil] at h; rw [h]⟩
  | cons c s ih =>
    simp only [Contains, Bool.or_eq_true, HasPrefixBytes_iff, ih, List.infix_cons_iff]

theorem path_in_script_error (path : Str) (e : GoError) :
    Contains (GoError.driver (lit "failed to execute SQL script " ++ path) e).Error path = true :=
  (Contains_iff _ _).mpr
    ⟨lit "failed to execute SQL script ", lit ": " ++ e.Error, by simp [GoError.Error]⟩

set_option maxRecDepth 8192 in
/-- C12, as stated, fails: the history insert of `A.sql` fails inside the
transaction, and the error that `apply` returns names the `INSERT` statement;
neither the file name nor its path occurs in the message. -/
theorem insert_error_does_not_name_file :
    (apply demoMigration demoLib insertFailEnv [lit "A.sql"] emptyWorld).1
      = .ret ([], some (insertError demoMigration demoLib boom)) ∧
    (insertError demoMigration demoLib boom).Error
      = lit "failed to execute SQL statement \"INSERT INTO migrations (migration, execution_time) VALUES ($1, $2);\": pq: connection lost" ∧
    Contains (insertError demoMigration demoLib boom).Error (lit "A.sql") = false ∧
    Contains (insertError demoMigration demoLib boom).Error
      (demoLib.joinPath demoMigration.path (lit "A.sql")) = false := by
  refine ⟨by decide, by decide, by decide, by decide⟩

/-- C12, amended: when the execution of the content or the history insert of a
pending file fails with the database error `e`, on the transactional or the
other path, `apply` returns a `DriverError` whose `Err` is `e`, so that
`UnderlyingError` yields `e`.  When it is the content that failed, the path
of the file occurs in the message; when it is the insert, the message is
built from the `INSERT` statement. -/
theorem exec_failure_wraps_database_error {S : Type} (m : Migration) (lib : Lib) (env : Env S)
    (pre post : List Str) (name buf : Str) (w wk : World S)
    (hpre : apply m lib env pre w = (.ret (pre, none), wk))
    (hread : env.readFile wk.now (lib.joinPath m.path name) = .ok buf) :
    (txSupported buf = true → env.beginFault (wk.now + 1) = none →
      (∀ e, (env.runScript (wk.now + 2) buf wk.db).1 = some e →
        ∃ err, (apply m lib env (pre ++ name :: post) w).1 = .ret (pre, some err) ∧
          (∃ info, err = .driver info e) ∧ UnderlyingError err = e ∧
          Contains err.Error (lib.joinPath m.path name) = true) ∧
      (∀ e, (env.runScript (wk.now + 2) buf wk.db).1 = none →
        (insertRow (env.insertFault (wk.now + 3)) name (env.since (wk.now + 3))
          (env.runScript (wk.now + 2) buf wk.db).2).1 = some e →
        ∃ err, (apply m lib env (pre ++ name :: post) w).1 = .ret (pre, some err) ∧
          (∃ info, err = .driver info e) ∧ UnderlyingError err = e ∧
          err = insertError m lib e)) ∧
    (txSupported buf = false →
      (∀ e, (env.runScript (wk.now + 1) buf wk.db).1 = some e →
        ∃ err, (apply m lib env (pre ++ name :: post) w).1 = .ret (pre, some err) ∧
          (∃ info, err = .driver info e) ∧ UnderlyingError err = e ∧
          Contains err.Error (lib.joinPath m.path name) = true) ∧
      (∀ e, (env.runScript (wk.now + 1) buf wk.db).1 = none →
        (insertRow (env.insertFault (wk.now + 2)) name (env.since (wk.now + 2))
          (env.runScript (wk.now + 1) buf wk.db).2).1 = some e →
        ∃ err, (apply m lib env (pre ++ name :: post) w).1 = .ret (pre, some err) ∧
          (∃ info, err = .driver info e) ∧ UnderlyingError err = e ∧
          err = insertError m lib e)) := by
  refine ⟨fun htx hbegin => ⟨?_, ?_⟩, fun hmark => ⟨?_, ?_⟩⟩
  · intro e hexec
    have h1 := applyOne_tx_script_fails m lib env name buf wk e hread htx hbegin hexec
    exact ⟨_, by rw [apply_at m lib env pre post name w wk _ hpre h1], ⟨_, rfl⟩, rfl,
      path_in_script_error _ e⟩
  · intro e hexec hins
    have h1 := applyOne_tx_insert_fails m lib env name buf wk e hread htx hbegin hexec hins
    exact ⟨insertError m lib e, by rw [apply_at m lib env pre post name w wk _ hpre h1],
      ⟨_, rfl⟩, rfl, rfl⟩
  · intro e hexec
    have h1 := applyOne_notx_script_fails m lib env name buf wk e hread hmark hexec
    have h2 : (applyOne m lib env name wk).1 = .ret (some (.driver
        (lit "failed to execute SQL script " ++ lib.joinPath m.path name) e)) := by rw [h1]
    exact ⟨_, by rw [apply_at m lib env pre post name w wk _ hpre h2], ⟨_, rfl⟩, rfl,
      path_in_script_error _ e⟩
  · intro e hexec hins
    have h1 := applyOne_notx_insert_fails m lib env name buf wk e hread hmark hexec hins
    have h2 : (applyOne m lib env name wk).1 = .ret (some (insertError m lib e)) := by rw [h1]
    exact ⟨insertError m lib e, by rw [apply_at m lib env pre post name w wk _ hpre h2],
      ⟨_, rfl⟩, rfl, rfl⟩

/-- C12, amended, at a concrete input: the script of `A.sql` is rejected inside
the transaction; the returned error wraps the database error and its message
holds the path `db/A.sql`. -/
theorem exec_failure_wraps_database_error_witness :
    ∃ err, (apply demoMigration demoLib rollbackFailEnv ([] ++ lit "A.sql" :: []) emptyWorld).1
        = .ret ([], some err) ∧
      (∃ info, err = .driver info (.plain (lit "pq: syntax error"))) ∧
      UnderlyingError err = .plain (lit "pq: syntax error") ∧
      Contains err.Error (demoLib.joinPath demoMigration.path (lit "A.sql")) = true :=
  ((exec_failure_wraps_database_error demoMigration demoLib rollbackFailEnv [] []
    (lit "A.sql") (lit "CREATE TABLE " ++ (lit "db" ++ lit "/" ++ lit "A.sql"))
    emptyWorld emptyWorld rfl rfl).1 (by decide) rfl).1 (.plain (lit "pq: syntax error")) rfl

/-! ## error.go -/

/-- C13: `UnderlyingError` of a `*DriverError` is its `Err`, the message of a
`*DriverError` is its `Info`, a colon and a blank, and the message of its
`Err`; `UnderlyingError` of any other error is that error. -/
theorem driver_error_unwraps (i : Str) (e : GoError) :
    UnderlyingError (.driver i e) = e ∧
    (GoError.driver i e).Error = i ++ lit ": " ++ e.Error ∧
    ∀ msg, UnderlyingError (.plain msg) = .plain msg :=
  ⟨rfl, rfl, fun _ => rfl⟩

/-! ## The directory listing -/

theorem availableLoop_eq (nodes : List DirEntry) :
    availableLoop nodes
      = (nodes.filter (fun n => !n.isDir && decide (Ext n.name = lit ".sql"))).map
          DirEntry.name := by
  have key : ∀ (nodes : List DirEntry) (acc : List Str),
      nodes.foldl (fun migrationFiles node =>
        if node.isDir then migrationFiles
        else if Ext node.name ≠ lit ".sql" then migrationFiles
        else migrationFiles ++ [node.name]) acc
      = acc ++ (nodes.filter (fun n => !n.isDir && decide (Ext n.name = lit ".sql"))).map
          DirEntry.name := by
    intro nodes
    induction nodes with
    | nil => simp
    | cons n ns ih =>
      intro acc
      simp only [List.foldl_cons, ih, List.filter_cons]
      by_cases hd : n.isDir = true
      · simp [hd]
      · by_cases he : Ext n.name = lit ".sql"
        · simp [hd, he]
        · simp [hd, he]
  rw [availableLoop, key]
  simp

theorem extLoop_shape (rev acc : Str) :
    extLoop rev acc = [] ∨
      ∃ a b, rev = a ++ 0x2E :: b ∧ extLoop rev acc = 0x2E :: (a.reverse ++ acc) := by
  induction rev generalizing acc with
  | nil => exact Or.inl rfl
  | cons c before ih =>
    simp only [extLoop]
    by_cases h1 : c = 0x2F
    · simp [h1]
    · by_cases h2 : c = 0x2E
      · subst h2
        exact Or.inr ⟨[], before, rfl, by simp⟩
      · rw [if_neg h1, if_neg h2]
        rcases ih (c :: acc) with h | ⟨a, b, hab, hr⟩
        · exact Or.inl h
        · exact Or.inr ⟨c :: a, b, by simp [hab], by simp [hr]⟩

theorem Ext_sql_iff (name : Str) : Ext name = lit ".sql" ↔ lit ".sql" <:+ name := by
  constructor
  · intro h
    unfold Ext at h
    rcases extLoop_shape name.reverse [] with h0 | ⟨a, b, hab, hr⟩
    · rw [h0] at h
      exact absurd h (by decide)
    · rw [hr] at h
      have ha : a.reverse = [0x73, 0x71, 0x6C] := by
        have : (0x2E :: (a.reverse ++ [])) = [0x2E, 0x73, 0x71, 0x6C] := h
        simpa using this
      have hn : name = b.reverse ++ 0x2E :: a.reverse := by
        have := congrArg List.reverse hab
        simpa using this
      rw [hn, ha]
      exact ⟨b.reverse, rfl⟩
  · rintro ⟨stem, rfl⟩
    simp [Ext, lit, extLoop]

theorem takeWhile_until_dot (l : Str) (h : 0x2E ∈ l) :
    ∃ rest, l = l.takeWhile (fun c => decide (c ≠ 0x2E)) ++ 0x2E :: rest := by
  induction l with
  | nil => simp at h
  | cons c l ih =>
    by_cases hc : c = 0x2E
    · subst hc
      exact ⟨l, by simp [List.takeWhile]⟩
    · have hl : 0x2E ∈ l := by
        rcases List.mem_cons.mp h with h1 | h1
        · exact absurd h1.symm hc
        · exact h1
      obtain ⟨rest, hr⟩ := ih hl
      refine ⟨rest, ?_⟩
      rw [List.takeWhile_cons_of_pos (by simpa using hc), List.cons_append, ← hr]

theorem lastDotSuffix_sql_iff (name : Str) :
    lastDotSuffix name = lit ".sql" ↔ lit ".sql" <:+ name := by
  constructor
  · intro h
    unfold lastDotSuffix at h
    by_cases hm : 0x2E ∈ name
    · rw [if_pos hm] at h
      have ht : (name.reverse.takeWhile (fun c => decide (c ≠ 0x2E))).reverse
          = [0x73, 0x71, 0x6C] := by
        have : (0x2E :: (name.reverse.takeWhile (fun c => decide (c ≠ 0x2E))).reverse)
            = [0x2E, 0x73, 0x71, 0x6C] := h
        simpa using this
      have ht2 : name.reverse.takeWhile (fun c => decide (c ≠ 0x2E)) = [0x6C, 0x71, 0x73] := by
        have := congrArg List.reverse ht
        simpa using this
      obtain ⟨rest, hr⟩ := takeWhile_until_dot name.reverse (List.mem_reverse.mpr hm)
      rw [ht2] at hr
      have hn : name = rest.reverse ++ [0x2E, 0x73, 0x71, 0x6C] := by
        have := congrArg List.reverse hr
        simpa using this
      rw [hn]
      exact ⟨rest.reverse, rfl⟩
    · rw [if_neg hm] at h
      exact absurd h (by decide)
  · rintro ⟨stem, rfl⟩
    simp [lastDotSuffix, lit, List.takeWhile]

/-- C14: from a directory listing that was read, `available` returns, in the
order of the listing, the names of the entries that are not directories and
whose extension, the suffix from the last dot of the name, is `.sql`; the
listing is the only operation it performs.  When the directory cannot be
read it returns an error and no list. -/
theorem available_lists_sql_files {S : Type} (m : Migration) (lib : Lib) (env : Env S)
    (w : World S) :
    (∀ nodes, env.readDir w.now m.path = .ok nodes →
      available m lib env w
        = (.ok ((nodes.filter (fun n => !n.isDir &&
              decide (lastDotSuffix n.name = lit ".sql"))).map DirEntry.name),
            ⟨w.db, w.tx, w.trace ++ [.readDir m.path true]⟩)) ∧
    (∀ e, env.readDir w.now m.path = .error e →
      ∃ err, available m lib env w
        = (.error err, ⟨w.db, w.tx, w.trace ++ [.readDir m.path false]⟩)) ∧
    (∀ name, Ext name = lit ".sql" ↔ lastDotSuffix name = lit ".sql") := by
  refine ⟨?_, ?_, ?_⟩
  · intro nodes h
    have hp : (fun n : DirEntry => !n.isDir && decide (lastDotSuffix n.name = lit ".sql"))
        = (fun n : DirEntry => !n.isDir && decide (Ext n.name = lit ".sql")) := by
      funext n
      congr 1
      simp only [decide_eq_decide]
      rw [lastDotSuffix_sql_iff, Ext_sql_iff]
    simp only [available, ReadDir, h, availableLoop_eq, hp]
    rfl
  · intro e h
    simp only [available, ReadDir, h]
    exact ⟨_, rfl⟩
  · intro name
    rw [Ext_sql_iff, lastDotSuffix_sql_iff]

/-! ## The function `filterExcept` -/

/-- C15, as stated, fails: `A.sql` exists in the first slice and does not exist
in the second, which holds `a.sql`, and `filterExcept` leaves it out. -/
theorem filterExcept_drops_case_variant :
    lit "A.sql" ∈ [lit "A.sql"] ∧ lit "A.sql" ∉ [lit "a.sql"] ∧
    filterExcept demoLib [lit "A.sql"] [lit "a.sql"] = [] := by
  decide

/-- C15, amended: `filterExcept(items, except)` is the list of the strings of
`items` that no string of `except` equals after lower-casing both, in their
order in `items` and with their multiplicity; `filterExcept(items, [])` is
`items` and `filterExcept([], except)` is empty. -/
theorem filterExcept_keeps_unmatched (lib : Lib) (items except : List Str) :
    filterExcept lib items except
      = items.filter (fun s => decide (∀ e ∈ except, ToLower lib s ≠ ToLower lib e)) ∧
    filterExcept lib items [] = items ∧
    filterExcept lib [] except = [] := by
  refine ⟨?_, ?_, ?_⟩
  · rw [filterExcept_eq]
    congr 1
    funext s
    rw [Bool.eq_iff_iff, notExcepted_iff]
    simp
  · rw [filterExcept_eq]
    simp [notExcepted]
  · rw [filterExcept_eq]
    rfl

/-! ## The opt-out marker, after trimming -/

/-- C16: `txSupported(s)` is false exactly when `s`, with its leading and
trailing white space removed by `bytes.TrimSpace`, begins with the marker, and
true otherwise; so leading white space (blank lines included) before the
marker and any text after it still suppress the transaction. -/
theorem txSupported_iff_trimmed_lacks_marker (s : Str) :
    (txSupported s = false ↔ noTransaction <+: TrimSpace s) ∧
    (txSupported s = true ↔ ¬ noTransaction <+: TrimSpace s) ∧
    (∀ ws rest : Str, (∀ c ∈ ws, c < 0x80 ∧ IsSpace c = true) →
      txSupported (ws ++ noTransaction ++ rest) = false) := by
  have h1 : txSupported s = false ↔ noTransaction <+: TrimSpace s := by
    unfold txSupported
    rw [← HasPrefixBytes_iff]
    cases HasPrefixBytes (TrimSpace s) noTransaction <;> simp
  refine ⟨h1, ?_, ?_⟩
  · rw [← h1]
    cases txSupported s <;> simp
  · intro ws rest hws
    rw [txSupported_false_iff, TrimLeftFunc_skips ws rest hws]
    exact List.prefix_append _ _

/-! ## The lost commit error -/

/-- C17, at a failing input: the transaction of `A.sql` runs through, and
`tx.Commit()` returns the error `boom`.  `transaction` returns nil, `apply`
returns `A.sql` as applied with a nil error, and the history stays empty. -/
theorem commit_error_is_lost :
    (Commit commitFailEnv (workOk (BeginTx commitFailEnv emptyWorld).2).2).1 = some boom ∧
    (transaction commitFailEnv workOk emptyWorld).1 = .ret none ∧
    apply demoMigration demoLib commitFailEnv [lit "A.sql"] emptyWorld
      = (.ret ([lit "A.sql"], none),
          ⟨⟨0, some []⟩, none,
            [.readFile (lit "db/A.sql") true, .beginTx true,
              .txExec (lit "CREATE TABLE db/A.sql") true, .txInsert (lit "A.sql") true,
              .commit false]⟩) := by
  decide

end Migrathor
